import Mathlib

/-!
# Verification of the timeseries-expr compiler pipelines

Shallow embedding of the C++ repository `timeseries-expr`, which ships two
parallel compile/evaluate pipelines:

* `ts::expr` (src/src/expr.cpp): tokens → shunting-yard RPN (`Compiled`)
  → tree-walking stack evaluator `eval_rpn` over an `Env` of `TimeSeries`.
* `tsexpr` (src/src/lexer.cpp, src/src/parser.cpp,
  src/include/tsexpr/program.hpp): tokens → shunting-yard RPN → lowered
  `Program` of instructions → generic stack machine `Program::execute`
  driven by a pluggable backend (the repository's example backend in
  examples/toy_backend.cpp is embedded in namespace `toy`).

Modelling conventions:
* C++ `double` is modelled as `ℚ`.  Every concrete value exercised by the
  spec's examples is a small integer, on which IEEE double arithmetic and
  exact rational arithmetic coincide.  (Division by zero yields `0` in `ℚ`
  instead of `inf`; no statement below exercises it.)
* C++ exceptions are modelled with `Except`.  `ParseError` and
  `EvalError`/backend `runtime_error` are distinguished only where a claim
  distinguishes them (pipeline wrappers tag an `ErrKind`).
* `strtod` number scanning is modelled as decimal scanning with an optional
  fractional part (the exponent/hex forms of `strtod` are not exercised by
  anything in the repository or spec).
* The lazy token streams the C++ parsers pull from a `Lexer` are reified
  into a `List Token` (`tokenize`); the parsers are driven over the list
  with one-token lookahead, exactly mirroring `lex.peek()`.
-/

/-- Token kinds, shared verbatim by `ts::expr::TokKind` (include/tsexpr/expr.hpp)
and `tsexpr::TokKind` (the unnamed token.hpp): the two C++ enums list exactly
the same constructors.  `End` is rendered `TEnd`. -/
inductive TokKind where
  | Ident
  | Number
  | Comma
  | Plus
  | Minus
  | Star
  | Slash
  | LParen
  | RParen
  | Assign
  | TEnd
  | Func
  | Neg
deriving DecidableEq, Repr

/-- Token record.  `ts::expr::Token` carries `kind`, `text`, `number`, `arity`;
`tsexpr::Token` carries `kind`, `text`, `number` (argc for Func tokens is stored
into `number`, see parser.cpp `fn.number = static_cast<double>(argc)`).  The
single structure carries both payload fields; the `tsexpr` code never touches
`arity`. -/
structure Token where
  kind : TokKind
  text : String := ""
  number : ℚ := 0
  arity : Int := 0
deriving DecidableEq, Repr

/-- `is_ident_start` (identical in src/src/lexer.cpp and src/src/expr.cpp):
letter or underscore. -/
def is_ident_start (c : Char) : Bool :=
  c.isAlpha || c = '_'

/-- `is_ident_char` (identical in both lexers): letter, digit or underscore. -/
def is_ident_char (c : Char) : Bool :=
  c.isAlphanum || c = '_'

/-- Numeric value of a digit string, most significant first. -/
def digitsVal (ds : List Char) : Nat :=
  ds.foldl (fun n c => 10 * n + (c.toNat - 48)) 0

/-- Decimal `strtod` model: an integer-digit run, optionally followed by a
decimal point and a fraction-digit run; fails (`none`) when no digit at all is
scanned (`strtod` returning `end == begin`). -/
def scanNumber (cs : List Char) : Option (ℚ × List Char) :=
  let ds := cs.takeWhile Char.isDigit
  let r1 := cs.dropWhile Char.isDigit
  match r1 with
  | '.' :: r2 =>
      let fs := r2.takeWhile Char.isDigit
      let r3 := r2.dropWhile Char.isDigit
      if ds.isEmpty && fs.isEmpty then none
      else some ((digitsVal ds : ℚ) + (digitsVal fs : ℚ) / ((10 : ℚ) ^ fs.length), r3)
  | _ =>
      if ds.isEmpty then none
      else some ((digitsVal ds : ℚ), r1)

/-- One lexing step.  Embeds `tsexpr::Lexer::next` (src/src/lexer.cpp) and the
behaviourally identical `ts::expr::Lexer::next_impl` (src/src/expr.cpp): skip
whitespace; single-character tokens `, + - * / ( ) =`; back-tick-quoted
identifier taken verbatim (parse error when unterminated); plain identifier;
number via `strtod`; otherwise "Unexpected character". -/
def Lexer.next (cs : List Char) : Except String (Token × List Char) :=
  let cs := cs.dropWhile Char.isWhitespace
  match cs with
  | [] => .ok ({ kind := .TEnd }, [])
  | c :: rest =>
    if c = ',' then .ok ({ kind := .Comma }, rest)
    else if c = '+' then .ok ({ kind := .Plus }, rest)
    else if c = '-' then .ok ({ kind := .Minus }, rest)
    else if c = '*' then .ok ({ kind := .Star }, rest)
    else if c = '/' then .ok ({ kind := .Slash }, rest)
    else if c = '(' then .ok ({ kind := .LParen }, rest)
    else if c = ')' then .ok ({ kind := .RParen }, rest)
    else if c = '=' then .ok ({ kind := .Assign }, rest)
    else if c = '`' then
      let content := rest.takeWhile (fun x => x ≠ '`')
      match rest.dropWhile (fun x => x ≠ '`') with
      | [] => .error "Unterminated backtick identifier"
      | _ :: r2 => .ok ({ kind := .Ident, text := String.mk content }, r2)
    else if is_ident_start c then
      let tl := rest.takeWhile is_ident_char
      .ok ({ kind := .Ident, text := String.mk (c :: tl) }, rest.dropWhile is_ident_char)
    else if c.isDigit || c = '.' then
      match scanNumber (c :: rest) with
      | none => .error "Invalid number"
      | some (q, r) => .ok ({ kind := .Number, number := q }, r)
    else .error "Unexpected character"

/-- Reification of the lazy token stream: pull tokens until `TEnd`.  The fuel
`cs.length + 1` always suffices since every non-`TEnd` token consumes at least
one character. -/
def tokenizeAux : Nat → List Char → Except String (List Token)
  | 0, _ => .error "Lexer made no progress"
  | fuel + 1, cs =>
    match Lexer.next cs with
    | .error e => .error e
    | .ok (t, rest) =>
      if t.kind = .TEnd then .ok []
      else
        match tokenizeAux fuel rest with
        | .error e => .error e
        | .ok ts => .ok (t :: ts)

/-- All tokens of an input, in order, excluding the terminal `TEnd`. -/
def tokenize (cs : List Char) : Except String (List Token) :=
  tokenizeAux (cs.length + 1) cs

/-! ## Shared shunting-yard loop helpers

The pop-to-open-paren loop, the operator pop loop and the end-of-input drain
loop are textually identical in `ts::expr::compile` (src/src/expr.cpp) and
`tsexpr::to_rpn` (src/src/parser.cpp); each is embedded once and used by both
parsers.  The operator stack is a list with its head as the stack top; the
output queue is a list appended at its tail. -/

/-- `while (!opstack.empty() && opstack.back().kind != LParen) { output += pop }`
followed by the `if (opstack.empty()) throw` check; on success the matching
`LParen` is still on top. -/
def popToLParen : List Token → List Token → Option (List Token × List Token)
  | [], _ => none
  | t :: r, out =>
    if t.kind = .LParen then some (t :: r, out)
    else popToLParen r (out ++ [t])

/-- The operator pop loop
`while (!opstack.empty() && is_operator(top) && pop_it) { output += pop }`,
parameterised by the `pop_it` decision (the two parsers use order-isomorphic
precedence tables). -/
def popOps (isOp : TokKind → Bool) (popIt : TokKind → TokKind → Bool)
    (cur : TokKind) : List Token → List Token → List Token × List Token
  | [], out => ([], out)
  | t :: r, out =>
    if isOp t.kind && popIt cur t.kind then popOps isOp popIt cur r (out ++ [t])
    else (t :: r, out)

/-- The end-of-input drain loop: emit remaining operators, failing on a leftover
open paren or function marker (identical in both parsers). -/
def drainOps : List Token → List Token → Except String (List Token)
  | [], out => .ok out
  | t :: r, out =>
    if t.kind = .LParen then .error "Mismatched '('"
    else if t.kind = .Func then .error "Mismatched function call"
    else drainOps r (out ++ [t])

namespace ts.expr

/-- `ts::expr` precedence (src/src/expr.cpp): Neg 3, Star/Slash 2, Plus/Minus 1,
default 0. -/
def precedence : TokKind → Int
  | .Neg => 3
  | .Star => 2
  | .Slash => 2
  | .Plus => 1
  | .Minus => 1
  | _ => 0

/-- `is_right_associative`: only unary negate. -/
def is_right_associative (k : TokKind) : Bool :=
  k = TokKind.Neg

/-- `is_operator`: the four binary operators and unary negate. -/
def is_operator (k : TokKind) : Bool :=
  k = TokKind.Plus || k = TokKind.Minus || k = TokKind.Star ||
    k = TokKind.Slash || k = TokKind.Neg

/-- The pop decision of the operator branch of `ts::expr::compile`:
right-associative incoming pops on strictly greater stacked precedence,
left-associative on greater-or-equal. -/
def pop_it (cur top : TokKind) : Bool :=
  if is_right_associative cur then precedence top > precedence cur
  else precedence top ≥ precedence cur

/-- `FuncCtx` (local struct in `ts::expr::compile`): commas seen at depth 1,
paren nesting depth inside the call, and whether any argument content was
seen. -/
structure FuncCtx where
  commas : Nat := 0
  depth : Int := 0
  saw_expr : Bool := false
deriving DecidableEq, Repr

/-- Parser state of `ts::expr::compile`'s token loop: output queue, operator
stack, function-frame stack (head = `back()`), and the `expect_operand`
flag. -/
structure St where
  output : List Token := []
  opstack : List Token := []
  func_stack : List FuncCtx := []
  expect_operand : Bool := true
deriving DecidableEq, Repr

/-- One iteration of the token loop of `ts::expr::compile` on token `t` with
lookahead `peek` (`lex.peek()`, `TEnd` represented by `none`).  The returned
`Bool` is true when the lookahead token was consumed (function-call open).
Faithful transcription of src/src/expr.cpp lines 149–292. -/
def step (t : Token) (peek : Option Token) (s : St) :
    Except String (St × Bool) :=
  if t.kind = .Ident then
    if (peek.map Token.kind) = some .LParen then
      let f : Token := { kind := .Func, text := t.text }
      let lp : Token := peek.getD { kind := .LParen }
      .ok ({ s with
              opstack := lp :: f :: s.opstack
              func_stack := { commas := 0, depth := 1, saw_expr := false } :: s.func_stack
              expect_operand := true }, true)
    else
      let fs :=
        match s.func_stack with
        | c :: r =>
          if c.depth = 1 && s.expect_operand then { c with saw_expr := true } :: r
          else c :: r
        | [] => []
      .ok ({ s with
              output := s.output ++ [t]
              func_stack := fs
              expect_operand := false }, false)
  else if t.kind = .Number then
    let fs :=
      match s.func_stack with
      | c :: r =>
        if c.depth = 1 && s.expect_operand then { c with saw_expr := true } :: r
        else c :: r
      | [] => []
    .ok ({ s with
            output := s.output ++ [t]
            func_stack := fs
            expect_operand := false }, false)
  else if t.kind = .Comma then
    match s.func_stack with
    | [] => .error "Unexpected ',' (commas are only valid inside function argument lists)"
    | c :: r =>
      if c.depth ≠ 1 then
        .error "Unexpected ',' (commas are only valid inside function argument lists)"
      else
        match popToLParen s.opstack s.output with
        | none => .error "Unexpected ','"
        | some (ops, out) =>
          .ok ({ s with
                  output := out
                  opstack := ops
                  func_stack := { c with commas := c.commas + 1 } :: r
                  expect_operand := true }, false)
  else if t.kind = .LParen then
    let fs :=
      match s.func_stack with
      | c :: r =>
        let c2 := { c with depth := c.depth + 1 }
        if c2.depth = 2 && s.expect_operand then { c2 with saw_expr := true } :: r
        else c2 :: r
      | [] => []
    .ok ({ s with
            opstack := t :: s.opstack
            func_stack := fs
            expect_operand := true }, false)
  else if t.kind = .RParen then
    let dec :
        Except String (Bool × List FuncCtx) :=
      match s.func_stack with
      | [] => .ok (false, [])
      | c :: r =>
        let d := c.depth - 1
        if d < 0 then .error "Mismatched ')'"
        else .ok (d = 0, { c with depth := d } :: r)
    match dec with
    | .error e => .error e
    | .ok (closes, fs) =>
      match popToLParen s.opstack s.output with
      | none => .error "Mismatched ')'"
      | some (ops, out) =>
        let ops := ops.tail
        if closes then
          match ops with
          | f :: ops2 =>
            if f.kind = .Func then
              match fs with
              | ctx :: fs2 =>
                if ctx.saw_expr then
                  .ok ({ s with
                          output := out ++ [{ f with arity := (ctx.commas : Int) + 1 }]
                          opstack := ops2
                          func_stack := fs2
                          expect_operand := false }, false)
                else .error "Function call has empty argument list"
              | [] => .error "Internal error: function context without function token"
            else .error "Internal error: function context without function token"
          | [] => .error "Internal error: function context without function token"
        else
          .ok ({ s with
                  output := out
                  opstack := ops
                  func_stack := fs
                  expect_operand := false }, false)
  else
    let k := if t.kind = .Minus && s.expect_operand then TokKind.Neg else t.kind
    if is_operator k then
      let (ops, out) := popOps is_operator pop_it k s.opstack s.output
      .ok ({ s with
              output := out
              opstack := { t with kind := k } :: ops
              expect_operand := true }, false)
    else if t.kind = .Assign then .error "Unexpected '=' inside expression"
    else .error "Unexpected token in expression"

/-- The token loop of `ts::expr::compile`: run `step` until the list is
exhausted or a `TEnd` token breaks the loop.  (`consumed` with an empty rest is
unreachable — a lookahead was consumed, so `rest` is non-empty; the `[]` arm
returns what `loop [] s2` would.) -/
def loop : List Token → St → Except String St
  | [], s => .ok s
  | t :: rest, s =>
    if t.kind = .TEnd then .ok s
    else
      match step t rest.head? s with
      | .error e => .error e
      | .ok (s2, consumed) =>
        if consumed then
          match rest with
          | [] => .ok s2
          | _ :: rest2 => loop rest2 s2
        else loop rest s2

/-- `Compiled` (include/tsexpr/expr.hpp): assignment target and RPN stream. -/
structure Compiled where
  target : String
  rpn : List Token
deriving DecidableEq, Repr

/-- `ts::expr::compile` over the reified token stream: leading identifier,
`=`, the token loop, then the drain loop. -/
def compile (toks : List Token) : Except String Compiled :=
  match toks with
  | [] => .error "Expected assignment target identifier at start"
  | lhs :: rest =>
    if lhs.kind ≠ .Ident then .error "Expected assignment target identifier at start"
    else
      match rest with
      | [] => .error "Expected '=' after assignment target"
      | eq :: rest2 =>
        if eq.kind ≠ .Assign then .error "Expected '=' after assignment target"
        else
          match loop rest2 {} with
          | .error e => .error e
          | .ok s =>
            match drainOps s.opstack s.output with
            | .error e => .error e
            | .ok out => .ok { target := lhs.text, rpn := out }

/-- `ts::expr::compile` from text. -/
def compileText (cs : List Char) : Except String Compiled :=
  match tokenize cs with
  | .error e => .error e
  | .ok toks => compile toks

end ts.expr

namespace tsexpr

/-- `tsexpr` precedence (src/src/parser.cpp): Neg 4, Star/Slash 3, Plus/Minus 2,
default 0 — same order as `ts::expr::precedence`, shifted by one. -/
def precedence : TokKind → Int
  | .Neg => 4
  | .Star => 3
  | .Slash => 3
  | .Plus => 2
  | .Minus => 2
  | _ => 0

/-- `is_right_assoc`: only unary negate. -/
def is_right_assoc (k : TokKind) : Bool :=
  k = TokKind.Neg

/-- `is_op`: the four binary operators and unary negate. -/
def is_op (k : TokKind) : Bool :=
  k = TokKind.Plus || k = TokKind.Minus || k = TokKind.Star ||
    k = TokKind.Slash || k = TokKind.Neg

/-- The pop decision of the operator branch of `tsexpr::to_rpn`. -/
def pop_it (cur top : TokKind) : Bool :=
  if is_right_assoc cur then precedence top > precedence cur
  else precedence top ≥ precedence cur

/-- `FnFrame` (local struct in `tsexpr::to_rpn`): function name, comma count,
and whether any argument token was seen.  Unlike `ts::expr::FuncCtx` there is
no nesting-depth field. -/
structure FnFrame where
  name : String := ""
  argc : Nat := 0
  saw_any_arg : Bool := false
deriving DecidableEq, Repr

/-- Parser state of `tsexpr::to_rpn`: output queue, operator stack, function
frame stack (head = `back()`), `expect_operand` flag. -/
structure St where
  output : List Token := []
  opstack : List Token := []
  fnstack : List FnFrame := []
  expect_operand : Bool := true
deriving DecidableEq, Repr

/-- One iteration of `tsexpr::to_rpn`'s token loop on token `t` with lookahead
`peek`.  The returned `Bool` is true when the lookahead token was consumed
(function-call open).  Faithful transcription of src/src/parser.cpp
lines 27–148. -/
def step (t : Token) (peek : Option Token) (s : St) :
    Except String (St × Bool) :=
  if t.kind = .Ident then
    if (peek.map Token.kind) = some .LParen then
      let f : Token := { kind := .Func, text := t.text, number := 0 }
      let lp : Token := peek.getD { kind := .LParen }
      .ok ({ s with
              opstack := lp :: f :: s.opstack
              fnstack := { name := t.text, argc := 0, saw_any_arg := false } :: s.fnstack
              expect_operand := true }, true)
    else
      let fns :=
        match s.fnstack with
        | c :: r => { c with saw_any_arg := true } :: r
        | [] => []
      .ok ({ s with
              output := s.output ++ [t]
              fnstack := fns
              expect_operand := false }, false)
  else if t.kind = .Number then
    let fns :=
      match s.fnstack with
      | c :: r => { c with saw_any_arg := true } :: r
      | [] => []
    .ok ({ s with
            output := s.output ++ [t]
            fnstack := fns
            expect_operand := false }, false)
  else if t.kind = .LParen then
    .ok ({ s with
            opstack := t :: s.opstack
            expect_operand := true }, false)
  else if t.kind = .Comma then
    match popToLParen s.opstack s.output with
    | none => .error "Comma not within function call"
    | some (ops, out) =>
      match s.fnstack with
      | [] => .error "Internal error: comma with no function frame"
      | c :: r =>
        .ok ({ s with
                output := out
                opstack := ops
                fnstack := { c with argc := c.argc + 1 } :: r
                expect_operand := true }, false)
  else if t.kind = .RParen then
    match popToLParen s.opstack s.output with
    | none => .error "Mismatched ')'"
    | some (ops, out) =>
      let ops := ops.tail
      match ops with
      | f :: ops2 =>
        if f.kind = .Func then
          match s.fnstack with
          | [] => .error "Internal error: function close with no frame"
          | frame :: fns2 =>
            let argc : Nat := if frame.saw_any_arg then frame.argc + 1 else 0
            let fns3 :=
              match fns2 with
              | c :: r => { c with saw_any_arg := true } :: r
              | [] => []
            .ok ({ s with
                    output := out ++ [{ f with number := (argc : ℚ) }]
                    opstack := ops2
                    fnstack := fns3
                    expect_operand := false }, false)
        else
          .ok ({ s with
                  output := out
                  opstack := ops
                  expect_operand := false }, false)
      | [] =>
        .ok ({ s with
                output := out
                opstack := []
                expect_operand := false }, false)
  else
    let k := if t.kind = .Minus && s.expect_operand then TokKind.Neg else t.kind
    if is_op k then
      let (ops, out) := popOps is_op pop_it k s.opstack s.output
      .ok ({ s with
              output := out
              opstack := { t with kind := k } :: ops
              expect_operand := true }, false)
    else .error "Unexpected token in expression"

/-- The token loop of `tsexpr::to_rpn`.  (`consumed` with an empty rest is
unreachable, as in `ts.expr.loop`.) -/
def loop : List Token → St → Except String St
  | [], s => .ok s
  | t :: rest, s =>
    if t.kind = .TEnd then .ok s
    else
      match step t rest.head? s with
      | .error e => .error e
      | .ok (s2, consumed) =>
        if consumed then
          match rest with
          | [] => .ok s2
          | _ :: rest2 => loop rest2 s2
        else loop rest s2

/-- `tsexpr::to_rpn`: run the loop, drain the operator stack, and fail on a
dangling function frame. -/
def to_rpn (toks : List Token) : Except String (List Token) :=
  match loop toks {} with
  | .error e => .error e
  | .ok s =>
    match drainOps s.opstack s.output with
    | .error e => .error e
    | .ok out =>
      if s.fnstack.isEmpty then .ok out
      else .error "Mismatched function call"

/-- `tsexpr::Op` (include/tsexpr/program.hpp). -/
inductive Op where
  | PushVar
  | PushNum
  | Add
  | Sub
  | Mul
  | Div
  | Neg
  | Call
  | Store
deriving DecidableEq, Repr

/-- `tsexpr::Instr` (include/tsexpr/program.hpp): opcode plus name / literal /
argc payloads. -/
structure Instr where
  op : Op
  text : String := ""
  number : ℚ := 0
  argc : Int := 0
deriving DecidableEq, Repr

/-- `tsexpr::Program`. -/
structure Program where
  code : List Instr
deriving DecidableEq, Repr

/-- `static_cast<int>` applied to the `double` argc stored in a Func token:
truncation toward zero. -/
def truncToInt (q : ℚ) : Int :=
  Int.tdiv q.num (q.den : Int)

/-- The RPN → instruction lowering loop of `tsexpr::compile` (the `switch`
over token kinds); comma/paren/assign tokens can never remain in RPN, giving
the "Unsupported token" parse error. -/
def lowerToks : List Token → Except String (List Instr)
  | [] => .ok []
  | t :: rest =>
    let ins : Except String Instr :=
      match t.kind with
      | .Number => .ok { op := .PushNum, text := "", number := t.number, argc := 0 }
      | .Ident => .ok { op := .PushVar, text := t.text, number := 0, argc := 0 }
      | .Neg => .ok { op := .Neg }
      | .Plus => .ok { op := .Add }
      | .Minus => .ok { op := .Sub }
      | .Star => .ok { op := .Mul }
      | .Slash => .ok { op := .Div }
      | .Func => .ok { op := .Call, text := t.text, argc := truncToInt t.number }
      | _ => .error "Unsupported token in RPN compilation"
    match ins with
    | .error e => .error e
    | .ok i =>
      match lowerToks rest with
      | .error e => .error e
      | .ok is => .ok (i :: is)

/-- `tsexpr::compile` over the reified token stream: leading identifier, `=`,
non-empty expression, `to_rpn`, lowering, and the trailing `Store`. -/
def compile (toks : List Token) : Except String Program :=
  match toks with
  | [] => .error "Expected assignment target identifier at start"
  | lhs :: rest =>
    if lhs.kind ≠ .Ident then .error "Expected assignment target identifier at start"
    else
      match rest with
      | [] => .error "Expected '=' after assignment target"
      | eq :: rest2 =>
        if eq.kind ≠ .Assign then .error "Expected '=' after assignment target"
        else
          match rest2 with
          | [] => .error "Expected expression after '='"
          | f :: _ =>
            if f.kind = .TEnd then .error "Expected expression after '='"
            else
            match to_rpn rest2 with
            | .error e => .error e
            | .ok rpn =>
              match lowerToks rpn with
              | .error e => .error e
              | .ok code =>
                .ok { code := code ++ [{ op := .Store, text := lhs.text }] }

/-- `tsexpr::compile` from text. -/
def compileText (cs : List Char) : Except String Program :=
  match tokenize cs with
  | .error e => .error e
  | .ok toks => compile toks

end tsexpr

namespace tsexpr

/-- The backend capability set consumed by `tsexpr::Program::execute`
(include/tsexpr/program.hpp is a template over any such backend): load/store by
name, literal construction, unary negate, binary dispatch, named call.  `S` is
the backend's mutable state (its variable store); the non-store operations are
state-preserving by typing, which matches both shipped backends
(examples/toy_backend.cpp and tests/test_expr.cpp declare them `const`). -/
structure StackBackend (V S : Type) where
  load_var : S → String → Except String V
  store_var : S → String → V → S
  make_number : ℚ → V
  neg : V → Except String V
  binary : Op → V → V → Except String V
  call : String → List V → Except String V

/-- One instruction of the `tsexpr::Program::execute` stack machine (the
`switch (ins.op)`): operand stack `st` has its head as top. -/
def execInstr {V S : Type} (B : StackBackend V S) (ins : Instr)
    (st : List V) (s : S) : Except String (List V × S) :=
  match ins.op with
  | .PushVar =>
    match B.load_var s ins.text with
    | .error e => .error e
    | .ok v => .ok (v :: st, s)
  | .PushNum => .ok (B.make_number ins.number :: st, s)
  | .Neg =>
    match st with
    | [] => .error "Stack underflow (bad program)"
    | a :: st2 =>
      match B.neg a with
      | .error e => .error e
      | .ok v => .ok (v :: st2, s)
  | .Add | .Sub | .Mul | .Div =>
    match st with
    | b :: a :: st2 =>
      match B.binary ins.op a b with
      | .error e => .error e
      | .ok v => .ok (v :: st2, s)
    | _ => .error "Stack underflow (bad program)"
  | .Call =>
    if ins.argc < 0 then .error "Invalid CALL argc"
    else if ins.argc.toNat > st.length then .error "Not enough args for CALL"
    else
      match B.call ins.text ((st.take ins.argc.toNat).reverse) with
      | .error e => .error e
      | .ok v => .ok (v :: st.drop ins.argc.toNat, s)
  | .Store =>
    match st with
    | [] => .error "Stack underflow (bad program)"
    | v :: st2 => .ok (st2, B.store_var s ins.text v)

/-- The instruction loop of `Program::execute`.  An error carries the backend
state as it was when the exception was thrown (the C++ backend is passed by
reference and survives the throw); note that a non-empty leftover stack at the
end is accepted silently — the function performs no final stack check. -/
def execGo {V S : Type} (B : StackBackend V S) :
    List Instr → List V → S → Except (String × S) (List V × S)
  | [], st, s => .ok (st, s)
  | i :: rest, st, s =>
    match execInstr B i st s with
    | .error e => .error (e, s)
    | .ok (st2, s2) => execGo B rest st2 s2

/-- `tsexpr::Program::execute`: run the whole program from an empty operand
stack against backend state `s`; the final operand stack is local and
discarded. -/
def Program.execute {V S : Type} (p : Program) (B : StackBackend V S) (s : S) :
    Except (String × S) S :=
  match execGo B p.code [] s with
  | .error es => .error es
  | .ok (_, s2) => .ok s2

end tsexpr

namespace toy

/-- Toy "time series" of examples/toy_backend.cpp: vector of doubles. -/
structure Series where
  v : List ℚ
deriving DecidableEq, Repr

/-- Toy backend value: series or scalar (`std::variant<Series, double>`). -/
inductive Value where
  | series (s : Series)
  | scalar (x : ℚ)
deriving DecidableEq, Repr

/-- The toy backend's variable store (`std::map<std::string, Value>`), as an
association list whose lookup takes the most recent binding. -/
abbrev Vars := List (String × Value)

/-- `toy::elementwise`: zip two equal-length series, failing on a length
mismatch. -/
def elementwise (a b : Series) (f : ℚ → ℚ → ℚ) : Except String Series :=
  if a.v.length = b.v.length then .ok ⟨List.zipWith f a.v b.v⟩
  else .error "Series length mismatch"

/-- `toy::elementwise_scalar`: map a series against a fixed scalar on the
right. -/
def elementwise_scalar (a : Series) (x : ℚ) (f : ℚ → ℚ → ℚ) : Series :=
  ⟨a.v.map (fun y => f y x)⟩

/-- `toy::sumproduct_series`: Σᵢ aᵢ·bᵢ over equal-length series. -/
def sumproduct_series (a b : Series) : Except String ℚ :=
  if a.v.length = b.v.length then
    .ok ((List.zipWith (fun x y => x * y) a.v b.v).foldl (fun acc p => acc + p) 0)
  else .error "Series length mismatch"

/-- `toy::Backend::binary`'s `pick`: the four arithmetic opcodes map to ℚ
operations, anything else is "Unsupported binary op". -/
def pick : tsexpr.Op → Except String (ℚ → ℚ → ℚ)
  | .Add => .ok (fun x y => x + y)
  | .Sub => .ok (fun x y => x - y)
  | .Mul => .ok (fun x y => x * y)
  | .Div => .ok (fun x y => x / y)
  | _ => .error "Unsupported binary op"

/-- `toy::Backend` (examples/toy_backend.cpp): the repository's reference
backend for `tsexpr::Program::execute`. -/
def Backend : tsexpr.StackBackend Value Vars where
  load_var := fun vars name =>
    match vars.lookup name with
    | some v => .ok v
    | none => .error ("Unknown variable: " ++ name)
  store_var := fun vars name v => (name, v) :: vars
  make_number := fun x => .scalar x
  neg := fun a =>
    match a with
    | .scalar x => .ok (.scalar (-x))
    | .series s => .ok (.series ⟨s.v.map (fun y => -y)⟩)
  binary := fun op a b =>
    match pick op with
    | .error e => .error e
    | .ok f =>
      match a, b with
      | .scalar x, .scalar y => .ok (.scalar (f x y))
      | .series x, .series y =>
        match elementwise x y f with
        | .error e => .error e
        | .ok s => .ok (.series s)
      | .series x, .scalar y => .ok (.series (elementwise_scalar x y f))
      | .scalar x, .series y => .ok (.series ⟨y.v.map (fun t => f x t)⟩)
  call := fun fn args =>
    if fn = "sumproduct" then
      match args with
      | [a, b] =>
        match a, b with
        | .series x, .series y =>
          match sumproduct_series x y with
          | .error e => .error e
          | .ok q => .ok (.scalar q)
        | .series x, .scalar y =>
          .ok (.scalar (y * x.v.foldl (fun acc t => acc + t) 0))
        | .scalar x, .series y =>
          .ok (.scalar (x * y.v.foldl (fun acc t => acc + t) 0))
        | .scalar x, .scalar y => .ok (.scalar (x * y))
      | _ => .error "sumproduct expects 2 args"
    else .error ("Unknown function: " ++ fn)

end toy

namespace ts.expr

/-- `ts::expr::TimeSeries` stub (include/tsexpr/timeseries_stub.hpp): vector of
doubles. -/
structure TimeSeries where
  v : List ℚ
deriving DecidableEq, Repr

/-- `TimeSeries::from_scalar`: length-1 series. -/
def TimeSeries.from_scalar (x : ℚ) : TimeSeries :=
  ⟨[x]⟩

/-- `ts::expr::Value = std::variant<TimeSeries, double>`. -/
inductive Value where
  | series (ts : TimeSeries)
  | scalar (x : ℚ)
deriving DecidableEq, Repr

/-- `ts::expr::Env = std::map<std::string, TimeSeries>`, as an association
list whose lookup takes the most recent binding. -/
abbrev Env := List (String × TimeSeries)

/-- Map-assignment `env[k] = v`. -/
def envInsert (k : String) (v : TimeSeries) (env : Env) : Env :=
  (k, v) :: env

/-- `TimeSeries::require_same_size` (throws on mismatch). -/
def require_same_size (a b : TimeSeries) : Except String Unit :=
  if a.v.length = b.v.length then .ok ()
  else .error "TimeSeries size mismatch (stub alignment rule)"

/-- `binop_ts_ts` (src/src/timeseries_stub.cpp): elementwise with the stub
same-size rule. -/
def binop_ts_ts (a b : TimeSeries) (f : ℚ → ℚ → ℚ) : Except String TimeSeries :=
  match require_same_size a b with
  | .error e => .error e
  | .ok _ => .ok ⟨List.zipWith f a.v b.v⟩

/-- `binop_ts_s`: series op scalar, elementwise. -/
def binop_ts_s (a : TimeSeries) (b : ℚ) (f : ℚ → ℚ → ℚ) : TimeSeries :=
  ⟨a.v.map (fun x => f x b)⟩

/-- `binop_s_ts`: scalar op series, elementwise. -/
def binop_s_ts (a : ℚ) (b : TimeSeries) (f : ℚ → ℚ → ℚ) : TimeSeries :=
  ⟨b.v.map (fun x => f a x)⟩

/-- Unary `operator-(const TimeSeries&)`. -/
def tsNeg (a : TimeSeries) : TimeSeries :=
  ⟨a.v.map (fun x => -x)⟩

/-- `sumproduct(TimeSeries, TimeSeries)`: Σᵢ aᵢ·bᵢ with the same-size rule. -/
def sumproduct_ts_ts (a b : TimeSeries) : Except String ℚ :=
  match require_same_size a b with
  | .error e => .error e
  | .ok _ => .ok ((List.zipWith (fun x y => x * y) a.v b.v).foldl (fun acc p => acc + p) 0)

/-- `sumproduct(TimeSeries, double)`: Σᵢ aᵢ·b. -/
def sumproduct_ts_s (a : TimeSeries) (b : ℚ) : ℚ :=
  a.v.foldl (fun acc x => acc + x * b) 0

/-- `sumproduct(double, TimeSeries)`: Σᵢ a·bᵢ. -/
def sumproduct_s_ts (a : ℚ) (b : TimeSeries) : ℚ :=
  b.v.foldl (fun acc x => acc + a * x) 0

/-- `sumproduct(double, double)`. -/
def sumproduct_s_s (a b : ℚ) : ℚ :=
  a * b

/-- `ts::expr::negate_value`. -/
def negate_value : Value → Value
  | .scalar x => .scalar (-x)
  | .series a => .series (tsNeg a)

/-- `ts::expr::apply_binary` (src/src/expr.cpp): dispatch on the two variant
shapes, then on the operator kind, with the per-shape "Unsupported … op"
errors. -/
def apply_binary (op : TokKind) (a b : Value) : Except String Value :=
  match a, b with
  | .scalar x, .scalar y =>
    match op with
    | .Plus => .ok (.scalar (x + y))
    | .Minus => .ok (.scalar (x - y))
    | .Star => .ok (.scalar (x * y))
    | .Slash => .ok (.scalar (x / y))
    | _ => .error "Unsupported scalar op"
  | .series x, .series y =>
    let f : Except String (ℚ → ℚ → ℚ) :=
      match op with
      | .Plus => .ok (fun u w => u + w)
      | .Minus => .ok (fun u w => u - w)
      | .Star => .ok (fun u w => u * w)
      | .Slash => .ok (fun u w => u / w)
      | _ => .error "Unsupported TS op"
    match f with
    | .error e => .error e
    | .ok f =>
      match binop_ts_ts x y f with
      | .error e => .error e
      | .ok ts => .ok (.series ts)
  | .series x, .scalar y =>
    match op with
    | .Plus => .ok (.series (binop_ts_s x y (fun u w => u + w)))
    | .Minus => .ok (.series (binop_ts_s x y (fun u w => u - w)))
    | .Star => .ok (.series (binop_ts_s x y (fun u w => u * w)))
    | .Slash => .ok (.series (binop_ts_s x y (fun u w => u / w)))
    | _ => .error "Unsupported TS-scalar op"
  | .scalar x, .series y =>
    match op with
    | .Plus => .ok (.series (binop_s_ts x y (fun u w => u + w)))
    | .Minus => .ok (.series (binop_s_ts x y (fun u w => u - w)))
    | .Star => .ok (.series (binop_s_ts x y (fun u w => u * w)))
    | .Slash => .ok (.series (binop_s_ts x y (fun u w => u / w)))
    | _ => .error "Unsupported scalar-TS op"

/-- `ts::expr::apply_function`: only `sumproduct` with exactly two arguments is
known. -/
def apply_function (fn : Token) (args : List Value) : Except String Value :=
  if fn.text = "sumproduct" then
    match args with
    | [a, b] =>
      match a, b with
      | .series x, .series y =>
        match sumproduct_ts_ts x y with
        | .error e => .error e
        | .ok q => .ok (.scalar q)
      | .series x, .scalar y => .ok (.scalar (sumproduct_ts_s x y))
      | .scalar x, .series y => .ok (.scalar (sumproduct_s_ts x y))
      | .scalar x, .scalar y => .ok (.scalar (sumproduct_s_s x y))
    | _ => .error "sumproduct expects 2 arguments"
  else .error ("Unknown function: " ++ fn.text)

/-- The token loop of `ts::expr::eval_rpn` (src/src/expr.cpp lines 363–441):
process each RPN token against the operand stack (head = top). -/
def evalAux (env : Env) : List Token → List Value → Except String (List Value)
  | [], st => .ok st
  | t :: rest, st =>
    match t.kind with
    | .Number => evalAux env rest (.scalar t.number :: st)
    | .Ident =>
      match env.lookup t.text with
      | none => .error ("Unknown variable: " ++ t.text)
      | some ts => evalAux env rest (.series ts :: st)
    | .Neg =>
      match st with
      | [] => .error "Stack underflow (bad expression)"
      | v :: st2 => evalAux env rest (negate_value v :: st2)
    | .Plus | .Minus | .Star | .Slash =>
      match st with
      | b :: a :: st2 =>
        match apply_binary t.kind a b with
        | .error e => .error e
        | .ok v => evalAux env rest (v :: st2)
      | _ => .error "Stack underflow (bad expression)"
    | .Func =>
      if t.arity ≤ 0 then .error "Bad function arity"
      else if t.arity.toNat > st.length then .error "Stack underflow (function args)"
      else
        match apply_function t ((st.take t.arity.toNat).reverse) with
        | .error e => .error e
        | .ok v => evalAux env rest (v :: st.drop t.arity.toNat)
    | _ => .error "Unexpected token during evaluation"

/-- `ts::expr::eval_rpn`: run the loop from an empty stack; the final stack
must hold exactly one value. -/
def eval_rpn (rpn : List Token) (env : Env) : Except String Value :=
  match evalAux env rpn [] with
  | .error e => .error e
  | .ok [v] => .ok v
  | .ok _ => .error "Expression did not reduce to a single value"

/-- The scalar-to-length-1-series coercion performed by
`ts::expr::execute_assignment` before storing. -/
def coerceStore : Value → TimeSeries
  | .scalar x => TimeSeries.from_scalar x
  | .series ts => ts

/-- `ts::expr::execute_assignment`: compile, evaluate, store (with the scalar
coercion).  An error carries the environment as it was at the throw — the
caller's `Env` is observable after the exception. -/
def execute_assignment (input : List Char) (env : Env) :
    Except (String × Env) Env :=
  match compileText input with
  | .error e => .error (e, env)
  | .ok c =>
    match eval_rpn c.rpn env with
    | .error e => .error (e, env)
    | .ok v => .ok (envInsert c.target (coerceStore v) env)

end ts.expr

/-! ## Whole-pipeline wrappers and the ts::expr ↔ toy correspondence -/

/-- The two error kinds of the spec's error model: `ParseError` (tokenizer or
parser) vs evaluation-time failure (`EvalError` or a backend
`runtime_error`). -/
inductive ErrKind where
  | parse
  | eval
deriving DecidableEq, Repr

/-- The `ts::expr` pipeline on an input text: compile (parse kind), evaluate
(eval kind), then store into the environment with the scalar coercion. -/
def tsPipeline (input : List Char) (env : ts.expr.Env) :
    Except (ErrKind × String) ts.expr.Env :=
  match ts.expr.compileText input with
  | .error e => .error (.parse, e)
  | .ok c =>
    match ts.expr.eval_rpn c.rpn env with
    | .error e => .error (.eval, e)
    | .ok v => .ok (ts.expr.envInsert c.target (ts.expr.coerceStore v) env)

/-- The `tsexpr` pipeline on an input text, executed against the repository's
toy backend. -/
def txPipeline (input : List Char) (vars : toy.Vars) :
    Except (ErrKind × String) toy.Vars :=
  match tsexpr.compileText input with
  | .error e => .error (.parse, e)
  | .ok p =>
    match p.execute toy.Backend vars with
    | .error es => .error (.eval, es.1)
    | .ok vars2 => .ok vars2

/-- A `ts::expr` value seen as a toy-backend value (the two variant types are
shape-identical). -/
def toyOfVal : ts.expr.Value → toy.Value
  | .series ts => .series ⟨ts.v⟩
  | .scalar x => .scalar x

/-- A `ts::expr` environment seen as a toy-backend variable store: the same
names bound to the same series. -/
def toyOfEnv (env : ts.expr.Env) : toy.Vars :=
  env.map (fun p => (p.1, toy.Value.series ⟨p.2.v⟩))

/-! ## Theorems

Concrete evaluations below need the Batteries rational arithmetic to unfold;
the kernel ignores reducibility attributes, so proofs by `decide` remain
kernel-checked as usual. -/

deriving instance DecidableEq for Except

section ClaimTheorems

attribute [local semireducible] Rat.mul Rat.add Rat.sub Rat.inv

/-- A small shared environment: `a = [1,2,3]`, `b = [10,20,30]`. -/
def envAB : ts.expr.Env :=
  [("a", ⟨[1, 2, 3]⟩), ("b", ⟨[10, 20, 30]⟩)]

/-- C1 counterexample.  The claim says the two pipelines fail with the same
error kind on every input.  On input `z =` (with the same bindings on both
sides) the `ts::expr` pipeline compiles successfully (empty RPN) and fails at
evaluation, while the `tsexpr` pipeline fails at parse ("Expected expression
after '='"): the error kinds differ. -/
theorem c1_pipelines_disagree_on_empty_expression :
    tsPipeline "z =".toList envAB =
        .error (.eval, "Expression did not reduce to a single value") ∧
      txPipeline "z =".toList (toyOfEnv envAB) =
        .error (.parse, "Expected expression after '='") := by
  constructor
  · decide
  · decide

/-- C2 counterexample.  The claim says compiling `z = f()` fails with a parse
error and that compilation never produces a Call instruction of arity 0.
`tsexpr::compile` accepts `z = f()` and emits exactly `Call f 0` followed by
the store. -/
theorem c2_tsexpr_accepts_empty_call :
    tsexpr.compileText "z = f()".toList =
      .ok ⟨[{ op := .Call, text := "f", number := 0, argc := 0 },
            { op := .Store, text := "z" }]⟩ := by
  decide

/-- C3 counterexample.  The claim says a comma inside nested parentheses of an
argument is a parse error (and never counts toward the enclosing call's
arity).  `tsexpr::compile` accepts `z = f((1,2))` — the comma sits at nesting
depth 2 relative to the call — and counts it, emitting `Call f` with arity 2. -/
theorem c3_tsexpr_counts_nested_comma :
    tsexpr.compileText "z = f((1,2))".toList =
      .ok ⟨[{ op := .PushNum, number := 1 },
            { op := .PushNum, number := 2 },
            { op := .Call, text := "f", number := 0, argc := 2 },
            { op := .Store, text := "z" }]⟩ := by
  decide

/-- C6 counterexample.  The claim says any complete expression followed by
further non-End tokens (e.g. a second operand with no operator between) fails
with a parse error and no Program is returned.  Both compilers accept
`z = a b`: `ts::expr::compile` returns the two-operand RPN `[a, b]` and
`tsexpr::compile` returns a Program pushing both and storing. -/
theorem c6_trailing_operand_compiles :
    ts.expr.compileText "z = a b".toList =
        .ok { target := "z",
              rpn := [{ kind := .Ident, text := "a" }, { kind := .Ident, text := "b" }] } ∧
      tsexpr.compileText "z = a b".toList =
        .ok ⟨[{ op := .PushVar, text := "a" }, { op := .PushVar, text := "b" },
              { op := .Store, text := "z" }]⟩ := by
  constructor
  · decide
  · decide

/-- C6 amended: a second operand with no operator in between is *not* a parse
error — both compilers consume it into the RPN.  The `ts::expr` pipeline fails
only at evaluation time ("Expression did not reduce to a single value"), while
the `tsexpr` pipeline executes the program and silently stores the last
operand's value.  Trailing garbage that cannot be part of an expression, such
as a stray `=`, does fail with a parse error in both compilers. -/
theorem c6_trailing_garbage_behaviour :
    tsPipeline "z = a b".toList envAB =
        .error (.eval, "Expression did not reduce to a single value") ∧
      txPipeline "z = a b".toList (toyOfEnv envAB) =
        .ok (("z", toy.Value.series ⟨[10, 20, 30]⟩) :: toyOfEnv envAB) ∧
      tsPipeline "z = a = b".toList envAB =
        .error (.parse, "Unexpected '=' inside expression") ∧
      txPipeline "z = a = b".toList (toyOfEnv envAB) =
        .error (.parse, "Unexpected token in expression") := by
  refine ⟨?_, ?_, ?_, ?_⟩
  · decide
  · decide
  · decide
  · decide

/-- C7 counterexample.  The claim says a program leaving leftover values on the
stack (overflow) causes a fatal evaluation error rather than completing
silently.  `tsexpr::Program::execute` performs no final stack check: the
program `[PushNum 1, PushNum 2, Store z]` completes successfully, stores `2`,
and discards the leftover `1`. -/
theorem c7_execute_ignores_leftover_stack :
    tsexpr.Program.execute
        ⟨[{ op := .PushNum, number := 1 }, { op := .PushNum, number := 2 },
          { op := .Store, text := "z" }]⟩ toy.Backend [] =
      .ok [("z", toy.Value.scalar 2)] := by
  decide

/-- C7 amended: `ts::expr::eval_rpn` does enforce the final-stack discipline —
it succeeds with `v` exactly when the token loop leaves precisely `[v]` on the
stack, anything else being a fatal evaluation error; and stack underflow at the
trailing store is a fatal error in the generic executor too.  But
`tsexpr::Program::execute` performs no final stack check: its instruction loop
accepts any leftover operand stack once the instruction list is exhausted. -/
theorem c7_final_stack_discipline :
    (∀ (rpn : List Token) (env : ts.expr.Env) (v : ts.expr.Value),
        ts.expr.eval_rpn rpn env = .ok v ↔ ts.expr.evalAux env rpn [] = .ok [v]) ∧
      (∀ {V S : Type} (B : tsexpr.StackBackend V S) (name : String) (s : S),
        tsexpr.execInstr B { op := .Store, text := name } [] s =
          .error "Stack underflow (bad program)") ∧
      (∀ {V S : Type} (B : tsexpr.StackBackend V S) (st : List V) (s : S),
        tsexpr.execGo B [] st s = .ok (st, s)) := by
  refine ⟨?_, ?_, ?_⟩
  · intro rpn env v
    unfold ts.expr.eval_rpn
    cases hev : ts.expr.evalAux env rpn [] with
    | error e => simp [hev]
    | ok l =>
      cases l with
      | nil => simp [hev]
      | cons x tl =>
        cases tl with
        | nil => simp [hev]
        | cons y tl2 => simp [hev]
  · intro V S B name s
    rfl
  · intro V S B st s
    rfl

/-- C10: the generic stack machine does not reject a zero-arity Call.  A
`Call name 0` instruction always invokes `backend.call` with the empty argument
vector and pushes the result; for general `argc` the executor itself raises an
evaluation error exactly when `argc` is negative or fewer than `argc` values
are on the stack, and otherwise defers to the backend with the popped
arguments in written order. -/
theorem c10_call_zero_arity_accepted {V S : Type} (B : tsexpr.StackBackend V S)
    (name : String) (argc : Int) (st : List V) (s : S) :
    (tsexpr.execInstr B { op := .Call, text := name, argc := 0 } st s =
        match B.call name [] with
        | .error e => .error e
        | .ok v => .ok (v :: st, s)) ∧
      (0 ≤ argc → argc.toNat ≤ st.length →
        tsexpr.execInstr B { op := .Call, text := name, argc := argc } st s =
          match B.call name ((st.take argc.toNat).reverse) with
          | .error e => .error e
          | .ok v => .ok (v :: st.drop argc.toNat, s)) ∧
      (argc < 0 →
        tsexpr.execInstr B { op := .Call, text := name, argc := argc } st s =
          .error "Invalid CALL argc") ∧
      (0 ≤ argc → st.length < argc.toNat →
        tsexpr.execInstr B { op := .Call, text := name, argc := argc } st s =
          .error "Not enough args for CALL") := by
  refine ⟨?_, ?_, ?_, ?_⟩
  · simp [tsexpr.execInstr]
  · intro h1 h2
    simp only [tsexpr.execInstr]
    rw [if_neg (by omega), if_neg (by omega)]
  · intro h1
    simp only [tsexpr.execInstr]
    rw [if_pos h1]
  · intro h1 h2
    simp only [tsexpr.execInstr]
    rw [if_neg (by omega), if_pos (by omega)]

/-- C10 witness: the theorem applied to the toy backend, `sumproduct`, arity 2
and a two-scalar stack; the backend is invoked with the arguments in written
order and its result is pushed. -/
theorem c10_call_zero_arity_accepted_witness :
    tsexpr.execInstr toy.Backend { op := .Call, text := "sumproduct", argc := 2 }
        [toy.Value.scalar 4, toy.Value.scalar 3] [] =
      .ok ([toy.Value.scalar 12], []) := by
  have h :=
    (c10_call_zero_arity_accepted toy.Backend "sumproduct" 2
        [toy.Value.scalar 4, toy.Value.scalar 3] []).2.1 (by decide) (by decide)
  exact h.trans (by decide)

/-! ### Lexer lemmas for the back-tick rules -/

/-- Dropping a prefix of characters that can never equal `c` preserves the
count of `c`. -/
theorem count_dropWhile_eq (p : Char → Bool) (c : Char)
    (h : ∀ x, p x = true → x ≠ c) :
    ∀ l : List Char, (l.dropWhile p).count c = l.count c := by
  intro l
  induction l with
  | nil => rfl
  | cons x r ih =>
    by_cases hp : p x = true
    · have hx : x ≠ c := h x hp
      simp [List.dropWhile_cons, hp, ih, List.count_cons, hx]
    · simp [List.dropWhile_cons, hp]

/-- Splitting on the first occurrence of `c`: a `c`-free prefix is taken
whole by `takeWhile (· ≠ c)` and the rest starts at the `c`. -/
theorem splitAtChar_append (c : Char) :
    ∀ (s r : List Char), (∀ x ∈ s, x ≠ c) →
      (s ++ c :: r).takeWhile (fun x => x ≠ c) = s ∧
        (s ++ c :: r).dropWhile (fun x => x ≠ c) = c :: r := by
  intro s
  induction s with
  | nil => intro r _; constructor <;> simp [List.takeWhile_cons, List.dropWhile_cons]
  | cons x s2 ih =>
    intro r h
    have hx : x ≠ c := h x (List.mem_cons_self x s2)
    have ih2 := ih r (fun y hy => h y (List.mem_cons_of_mem x hy))
    have hpx : (fun y : Char => decide (y ≠ c)) x = true := by simp [hx]
    constructor
    · simp only [List.cons_append, List.takeWhile_cons, hpx, if_true]
      rw [ih2.1]
    · simp only [List.cons_append, List.dropWhile_cons, hpx, if_true]
      exact ih2.2

/-- `strtod` scanning consumes only digits and a dot, so it preserves the
back-tick count. -/
theorem scanNumber_count (cs : List Char) (q : ℚ) (r : List Char)
    (h : scanNumber cs = some (q, r)) : r.count '`' = cs.count '`' := by
  have hdg : ∀ x : Char, x.isDigit = true → x ≠ '`' := by
    intro x hx hxc; rw [hxc] at hx; exact absurd hx (by decide)
  have h1 : (cs.dropWhile Char.isDigit).count '`' = cs.count '`' :=
    count_dropWhile_eq _ _ hdg cs
  rw [scanNumber] at h
  rcases hr1 : cs.dropWhile Char.isDigit with _ | ⟨d, r2⟩ <;> rw [hr1] at h h1
  · dsimp only at h
    split at h
    · exact absurd h (by simp)
    · simp only [Option.some.injEq, Prod.mk.injEq] at h
      rw [← h.2, ← h1]
  · split at h
    next r2b heq =>
      injection heq with hd hr2
      subst hd
      subst hr2
      dsimp only at h
      split at h
      · exact absurd h (by simp)
      · simp only [Option.some.injEq, Prod.mk.injEq] at h
        rw [← h.2, ← h1, count_dropWhile_eq _ _ hdg r2]
        simp [List.count_cons]
    next =>
      try dsimp only at h
      split at h
      · exact absurd h (by simp)
      · simp only [Option.some.injEq, Prod.mk.injEq] at h
        rw [← h.2, ← h1]

/-- A successful lexing step removes either zero back-ticks (any ordinary
token) or exactly two (a quoted identifier); it can never remove exactly
one. -/
theorem lexerNext_backtick_parity (cs : List Char) (t : Token) (rest : List Char)
    (h : Lexer.next cs = .ok (t, rest)) :
    (cs.count '`' = rest.count '`' ∨ cs.count '`' = rest.count '`' + 2) ∧
      (t.kind = .TEnd → cs.count '`' = 0) := by
  have hws : ∀ x : Char, x.isWhitespace = true → x ≠ '`' := by
    intro x hx hc; rw [hc] at hx; exact absurd hx (by decide)
  have hcount : (cs.dropWhile Char.isWhitespace).count '`' = cs.count '`' :=
    count_dropWhile_eq _ _ hws cs
  rw [Lexer.next] at h
  rcases hd : cs.dropWhile Char.isWhitespace with _ | ⟨c, r⟩ <;> rw [hd] at h hcount
  · simp only [Except.ok.injEq, Prod.mk.injEq] at h
    constructor
    · left
      rw [← h.2, ← hcount]
    · intro _
      rw [← hcount]
      rfl
  dsimp only at h
  by_cases h1 : c = ','
  · rw [if_pos h1] at h
    injection h with hp
    injection hp with hp1 hp2
    constructor
    · left
      rw [← hp2, ← hcount]
      subst h1
      simp [List.count_cons]
    · intro hk
      rw [← hp1] at hk
      exact absurd hk (by decide)
  rw [if_neg h1] at h
  by_cases h2 : c = '+'
  · rw [if_pos h2] at h
    injection h with hp
    injection hp with hp1 hp2
    constructor
    · left
      rw [← hp2, ← hcount]
      subst h2
      simp [List.count_cons]
    · intro hk
      rw [← hp1] at hk
      exact absurd hk (by decide)
  rw [if_neg h2] at h
  by_cases h3 : c = '-'
  · rw [if_pos h3] at h
    injection h with hp
    injection hp with hp1 hp2
    constructor
    · left
      rw [← hp2, ← hcount]
      subst h3
      simp [List.count_cons]
    · intro hk
      rw [← hp1] at hk
      exact absurd hk (by decide)
  rw [if_neg h3] at h
  by_cases h4 : c = '*'
  · rw [if_pos h4] at h
    injection h with hp
    injection hp with hp1 hp2
    constructor
    · left
      rw [← hp2, ← hcount]
      subst h4
      simp [List.count_cons]
    · intro hk
      rw [← hp1] at hk
      exact absurd hk (by decide)
  rw [if_neg h4] at h
  by_cases h5 : c = '/'
  · rw [if_pos h5] at h
    injection h with hp
    injection hp with hp1 hp2
    constructor
    · left
      rw [← hp2, ← hcount]
      subst h5
      simp [List.count_cons]
    · intro hk
      rw [← hp1] at hk
      exact absurd hk (by decide)
  rw [if_neg h5] at h
  by_cases h6 : c = '('
  · rw [if_pos h6] at h
    injection h with hp
    injection hp with hp1 hp2
    constructor
    · left
      rw [← hp2, ← hcount]
      subst h6
      simp [List.count_cons]
    · intro hk
      rw [← hp1] at hk
      exact absurd hk (by decide)
  rw [if_neg h6] at h
  by_cases h7 : c = ')'
  · rw [if_pos h7] at h
    injection h with hp
    injection hp with hp1 hp2
    constructor
    · left
      rw [← hp2, ← hcount]
      subst h7
      simp [List.count_cons]
    · intro hk
      rw [← hp1] at hk
      exact absurd hk (by decide)
  rw [if_neg h7] at h
  by_cases h8 : c = '='
  · rw [if_pos h8] at h
    injection h with hp
    injection hp with hp1 hp2
    constructor
    · left
      rw [← hp2, ← hcount]
      subst h8
      simp [List.count_cons]
    · intro hk
      rw [← hp1] at hk
      exact absurd hk (by decide)
  rw [if_neg h8] at h
  by_cases h9 : c = '`'
  · rw [if_pos h9] at h
    subst h9
    rcases hr : r.dropWhile (fun x => x ≠ '`') with _ | ⟨d, r2⟩ <;> rw [hr] at h
    · exact absurd h (by simp)
    · injection h with hp
      injection hp with hp1 hp2
      refine ⟨?_, fun hk => absurd (hp1 ▸ hk) (by simp)⟩
      right
      have hsplit : r.takeWhile (fun x => x ≠ '`') ++ r.dropWhile (fun x => x ≠ '`') = r :=
        List.takeWhile_append_dropWhile (fun x => decide (x ≠ '`')) r
      have htk : (r.takeWhile (fun x => x ≠ '`')).count '`' = 0 := by
        rw [List.count_eq_zero]
        intro hmem
        have := List.mem_takeWhile_imp hmem
        simp at this
      have hd2 : d = '`' := by
        by_contra hne
        have hh := List.head?_dropWhile_not (fun x : Char => decide (x ≠ '`')) r
        rw [hr] at hh
        simp [hne] at hh
      have hcr : r.count '`' = r2.count '`' + 1 := by
        rw [← hsplit, List.count_append, hr, htk, hd2]
        simp [List.count_cons]
      rw [← hp2, ← hcount]
      simp only [List.count_cons, hcr]
      simp
  rw [if_neg h9] at h
  by_cases h10 : is_ident_start c = true
  · rw [if_pos h10] at h
    injection h with hp
    injection hp with hp1 hp2
    refine ⟨?_, fun hk => absurd (hp1 ▸ hk) (by simp)⟩
    left
    have hc : c ≠ '`' := by
      intro hc; rw [hc] at h10; exact absurd h10 (by decide)
    have hik : ∀ x : Char, is_ident_char x = true → x ≠ '`' := by
      intro x hx hxc; rw [hxc] at hx; exact absurd hx (by decide)
    rw [← hp2, ← hcount]
    simp only [List.count_cons]
    rw [count_dropWhile_eq _ _ hik r]
    simp [hc]
  rw [if_neg h10] at h
  by_cases h11 : (c.isDigit || c = '.') = true
  · rw [if_pos h11] at h
    rcases hs : scanNumber (c :: r) with _ | ⟨q, r3⟩ <;> rw [hs] at h
    · exact absurd h (by simp)
    · injection h with hp
      injection hp with hp1 hp2
      refine ⟨?_, fun hk => absurd (hp1 ▸ hk) (by simp)⟩
      left
      rw [← hp2, ← hcount]
      exact (scanNumber_count _ _ _ hs).symm
  rw [if_neg h11] at h
  exact absurd h (by simp)

/-- A fully tokenized input contains an even number of back-ticks: quoted
identifiers pair them up greedily from the left. -/
theorem tokenizeAux_even :
    ∀ (fuel : Nat) (cs : List Char) (ts : List Token),
      tokenizeAux fuel cs = .ok ts → Even (cs.count '`') := by
  intro fuel
  induction fuel with
  | zero => intro cs ts h; exact absurd h (by simp [tokenizeAux])
  | succ n ih =>
    intro cs ts h
    rw [tokenizeAux] at h
    rcases hn : Lexer.next cs with e | ⟨t, rest⟩ <;> rw [hn] at h
    · exact absurd h (by simp)
    · dsimp only at h
      have hpar := lexerNext_backtick_parity cs t rest hn
      by_cases hk : t.kind = .TEnd
      · rw [hpar.2 hk]
        exact even_zero
      · rw [if_neg hk] at h
        rcases hrec : tokenizeAux n rest with e | ts2 <;> rw [hrec] at h
        · exact absurd h (by simp)
        · have hev := ih rest ts2 hrec
          rcases hpar.1 with hc | hc
          · rw [hc]; exact hev
          · rcases hev with ⟨k, hk2⟩
            exact ⟨k + 1, by omega⟩

/-- C9: the tokenizer takes a back-tick-quoted identifier verbatim — any
back-tick-free content between the ticks becomes the identifier text, with the
input resuming right after the closing tick — and an input in which an opening
back-tick is never closed (equivalently, whose back-tick count is odd, since
ticks pair up greedily) fails to tokenize with a parse error. -/
theorem c9_backtick_quoting :
    (∀ (s rest : List Char), (∀ x ∈ s, x ≠ '`') →
        Lexer.next ('`' :: (s ++ '`' :: rest)) =
          .ok ({ kind := .Ident, text := String.mk s }, rest)) ∧
      (∀ cs : List Char, Odd (cs.count '`') → ∃ e, tokenize cs = .error e) := by
  constructor
  · intro s rest hs
    rw [Lexer.next]
    rw [show (('`' :: (s ++ '`' :: rest)).dropWhile Char.isWhitespace) =
          '`' :: (s ++ '`' :: rest) from by
        rw [List.dropWhile_cons, if_neg (by decide)]]
    dsimp only
    rw [if_neg (by decide), if_neg (by decide), if_neg (by decide), if_neg (by decide),
      if_neg (by decide), if_neg (by decide), if_neg (by decide), if_neg (by decide),
      if_pos rfl]
    obtain ⟨ht, hdrop⟩ := splitAtChar_append '`' s rest hs
    rw [ht, hdrop]
  · intro cs hodd
    rcases htk : tokenize cs with e | ts
    · exact ⟨e, rfl⟩
    · exfalso
      rw [tokenize] at htk
      have hev := tokenizeAux_even _ cs ts htk
      exact Nat.not_even_iff_odd.mpr hodd hev

/-- C9 witness: the quoting rule applied to content `ab c` with trailing input
`+1`, and the unterminated input `` z = `oops `` failing to tokenize. -/
theorem c9_backtick_quoting_witness :
    Lexer.next ('`' :: ("ab c".toList ++ '`' :: "+1".toList)) =
        .ok ({ kind := .Ident, text := "ab c" }, "+1".toList) ∧
      ∃ e, tokenize "z = `oops".toList = .error e := by
  constructor
  · exact (c9_backtick_quoting.1 "ab c".toList "+1".toList (by decide))
  · exact c9_backtick_quoting.2 "z = `oops".toList (by decide)

/-- C5: in the `ts::expr` parser a minus token is reinterpreted as unary
negate exactly when the parser is in expect-operand position, and is kept as
binary subtraction otherwise (the operator pushed onto the stack records the
choice); a successful step leaves the parser in expect-operand position
exactly after an operator token (minus already reinterpreted), an open paren,
a comma, or a function-call open — precisely the positions the claim lists
(`start of expression` is the initial state, whose `expect_operand` is true);
and `z = a * -b` with `a = [1,2,3]`, `b = [10,20,30]` stores `[-10,-40,-90]`. -/
theorem c5_minus_disambiguation :
    (∀ (t : Token) (peek : Option Token) (s s2 : ts.expr.St) (c : Bool),
        t.kind = .Minus →
        ts.expr.step t peek s = .ok (s2, c) →
        (s.expect_operand = true →
            s2.opstack.head? = some { t with kind := .Neg }) ∧
          (s.expect_operand = false →
            s2.opstack.head? = some { t with kind := .Minus })) ∧
      (∀ (t : Token) (peek : Option Token) (s s2 : ts.expr.St) (c : Bool),
        ts.expr.step t peek s = .ok (s2, c) →
        (s2.expect_operand = true ↔
          (ts.expr.is_operator
              (if t.kind = .Minus && s.expect_operand then .Neg else t.kind) = true ∨
            t.kind = .LParen ∨ t.kind = .Comma ∨ (t.kind = .Ident ∧ c = true)))) ∧
      tsPipeline "z = a * -b".toList envAB =
        .ok (ts.expr.envInsert "z" ⟨[-10, -40, -90]⟩ envAB) := by
  refine ⟨?_, ?_, ?_⟩
  · intro t peek s s2 c ht h
    rw [ts.expr.step, ht] at h
    by_cases he : s.expect_operand
    · rw [he] at h
      simp [ts.expr.is_operator] at h
      obtain ⟨h1, h2⟩ := h
      subst h1
      constructor
      · intro _
        rfl
      · intro hfalse
        rw [he] at hfalse
        exact absurd hfalse (by simp)
    · have he2 : s.expect_operand = false := by simpa using he
      rw [he2] at h
      simp [ts.expr.is_operator] at h
      obtain ⟨h1, h2⟩ := h
      subst h1
      constructor
      · intro htrue
        rw [he2] at htrue
        exact absurd htrue (by simp)
      · intro _
        rfl
  · intro t peek s s2 c h
    cases ht : t.kind
    case Ident =>
      rw [ts.expr.step, ht] at h
      by_cases hp : peek.map Token.kind = some TokKind.LParen
      · simp [hp] at h
        obtain ⟨h1, h2⟩ := h
        subst h1
        subst h2
        simp [ht, ts.expr.is_operator]
      · simp [hp] at h
        obtain ⟨h1, h2⟩ := h
        subst h1
        subst h2
        simp [ht, ts.expr.is_operator]
    case Number =>
      rw [ts.expr.step, ht] at h
      simp [ts.expr.is_operator] at h
      obtain ⟨h1, h2⟩ := h
      subst h1
      subst h2
      simp [ht, ts.expr.is_operator]
    case Comma =>
      rw [ts.expr.step, ht] at h
      rcases hfs : s.func_stack with _ | ⟨fc, fr⟩
      · simp [hfs] at h
      · by_cases hd : fc.depth = 1
        · rcases hpop : popToLParen s.opstack s.output with _ | ⟨ops, out⟩
          · simp [hfs, hd, hpop] at h
          · simp [hfs, hd, hpop] at h
            obtain ⟨h1, h2⟩ := h
            subst h1
            subst h2
            simp [ht, ts.expr.is_operator]
        · simp [hfs, hd] at h
    case LParen =>
      rw [ts.expr.step, ht] at h
      simp at h
      obtain ⟨h1, h2⟩ := h
      subst h1
      subst h2
      simp [ht, ts.expr.is_operator]
    case RParen =>
      rw [ts.expr.step, ht] at h
      have hfinish : s2.expect_operand = false → (s2.expect_operand = true ↔
          (ts.expr.is_operator
              (if TokKind.RParen = TokKind.Minus && s.expect_operand then .Neg
               else TokKind.RParen) = true ∨
            TokKind.RParen = TokKind.LParen ∨ TokKind.RParen = TokKind.Comma ∨
            (TokKind.RParen = TokKind.Ident ∧ c = true))) := by
        intro hfe
        rw [hfe]
        simp [ts.expr.is_operator]
      rcases hfs : s.func_stack with _ | ⟨fc, fr⟩
      · rw [hfs] at h
        simp only at h
        rcases hpop : popToLParen s.opstack s.output with _ | ⟨ops, out⟩
        · simp [hpop] at h
        · simp [hpop] at h
          obtain ⟨h1, h2⟩ := h
          subst h1
          exact hfinish rfl
      · rw [hfs] at h
        by_cases hneg : fc.depth - 1 < 0
        · simp [hneg] at h
        · rcases hpop : popToLParen s.opstack s.output with _ | ⟨ops, out⟩
          · simp [hneg, hpop] at h
          · by_cases hz : fc.depth - 1 = 0
            · rcases hops : ops.tail with _ | ⟨f, ops2⟩
              · simp [hneg, hpop, hz, hops] at h
              · by_cases hf : f.kind = .Func
                · by_cases hsaw : fc.saw_expr
                  · simp [hneg, hpop, hz, hops, hf, hsaw] at h
                    obtain ⟨h1, h2⟩ := h
                    subst h1
                    exact hfinish rfl
                  · simp [hneg, hpop, hz, hops, hf, hsaw] at h
                · simp [hneg, hpop, hz, hops, hf] at h
            · simp [hneg, hpop, hz] at h
              obtain ⟨h1, h2⟩ := h
              subst h1
              exact hfinish rfl
    case Minus =>
      rw [ts.expr.step, ht] at h
      by_cases he : s.expect_operand
      · rw [he] at h
        simp [ts.expr.is_operator] at h
        obtain ⟨h1, h2⟩ := h
        subst h1
        subst h2
        simp [ht, he, ts.expr.is_operator]
      · have he2 : s.expect_operand = false := by simpa using he
        rw [he2] at h
        simp [ts.expr.is_operator] at h
        obtain ⟨h1, h2⟩ := h
        subst h1
        subst h2
        simp [ht, he2, ts.expr.is_operator]
    case Plus =>
      rw [ts.expr.step, ht] at h
      simp [ts.expr.is_operator] at h
      obtain ⟨h1, h2⟩ := h
      subst h1
      subst h2
      simp [ht, ts.expr.is_operator]
    case Star =>
      rw [ts.expr.step, ht] at h
      simp [ts.expr.is_operator] at h
      obtain ⟨h1, h2⟩ := h
      subst h1
      subst h2
      simp [ht, ts.expr.is_operator]
    case Slash =>
      rw [ts.expr.step, ht] at h
      simp [ts.expr.is_operator] at h
      obtain ⟨h1, h2⟩ := h
      subst h1
      subst h2
      simp [ht, ts.expr.is_operator]
    case Neg =>
      rw [ts.expr.step, ht] at h
      simp [ts.expr.is_operator] at h
      obtain ⟨h1, h2⟩ := h
      subst h1
      subst h2
      simp [ht, ts.expr.is_operator]
    case Assign =>
      rw [ts.expr.step, ht] at h
      simp [ts.expr.is_operator] at h
    case TEnd =>
      rw [ts.expr.step, ht] at h
      simp [ts.expr.is_operator] at h
    case Func =>
      rw [ts.expr.step, ht] at h
      simp [ts.expr.is_operator] at h
  · decide

/-- C5 witness: the theorem applied to a bare minus token in the initial state
(expect-operand holds at the start of an expression): the pushed operator is
unary negate. -/
theorem c5_minus_disambiguation_witness :
    (({} : ts.expr.St).expect_operand = true →
        ({ output := [], opstack := [{ kind := TokKind.Neg, text := "", number := 0, arity := 0 }],
            func_stack := [], expect_operand := true } : ts.expr.St).opstack.head? =
          some { kind := TokKind.Neg, text := "", number := 0, arity := 0 }) ∧
      (({} : ts.expr.St).expect_operand = false →
        ({ output := [], opstack := [{ kind := TokKind.Neg, text := "", number := 0, arity := 0 }],
            func_stack := [], expect_operand := true } : ts.expr.St).opstack.head? =
          some { kind := TokKind.Minus, text := "", number := 0, arity := 0 }) :=
  c5_minus_disambiguation.1 { kind := TokKind.Minus } none {} _ false rfl (by decide)

/-- C3 amended: in the `ts::expr` parser a comma step succeeds only with an
active function frame of nesting depth exactly 1; it pops operators down to
the enclosing open paren (failing when there is none), increments exactly the
innermost frame's comma count and resets expect-operand; a comma with no
frame, or at nesting depth ≠ 1, is a parse error; and the Call emitted when a
frame closes carries arity = that frame's comma count + 1.  The `tsexpr`
parser instead accepts a comma whenever an unmatched open paren is on the
operator stack and any call frame exists — with no depth condition at all —
and increments the innermost call's count, so commas inside nested
parentheses of an argument do count toward the enclosing call's arity. -/
theorem c3_comma_depth_discipline :
    (∀ (t : Token) (peek : Option Token) (s s2 : ts.expr.St) (c : Bool),
        t.kind = .Comma →
        ts.expr.step t peek s = .ok (s2, c) →
        ∃ fc fr ops out, s.func_stack = fc :: fr ∧ fc.depth = 1 ∧
          popToLParen s.opstack s.output = some (ops, out) ∧
          s2 = { output := out, opstack := ops,
                 func_stack := { fc with commas := fc.commas + 1 } :: fr,
                 expect_operand := true } ∧ c = false) ∧
      (∀ (t : Token) (peek : Option Token) (s : ts.expr.St),
        t.kind = .Comma →
        (s.func_stack = [] ∨ ∀ fc fr, s.func_stack = fc :: fr → fc.depth ≠ 1) →
        ∃ e, ts.expr.step t peek s = .error e) ∧
      (∀ (t : Token) (peek : Option Token) (s s2 : ts.expr.St) (c : Bool)
          (fc : ts.expr.FuncCtx) (fr : List ts.expr.FuncCtx),
        t.kind = .RParen →
        s.func_stack = fc :: fr →
        fc.depth = 1 →
        ts.expr.step t peek s = .ok (s2, c) →
        ∃ (f : Token) (out : List Token), f.kind = .Func ∧
          s2.output = out ++ [{ f with arity := (fc.commas : Int) + 1 }]) ∧
      (∀ (t : Token) (peek : Option Token) (s s2 : tsexpr.St) (c : Bool),
        t.kind = .Comma →
        tsexpr.step t peek s = .ok (s2, c) →
        ∃ ops out fc fr, popToLParen s.opstack s.output = some (ops, out) ∧
          s.fnstack = fc :: fr ∧
          s2 = { output := out, opstack := ops,
                 fnstack := { fc with argc := fc.argc + 1 } :: fr,
                 expect_operand := true } ∧ c = false) := by
  refine ⟨?_, ?_, ?_, ?_⟩
  · intro t peek s s2 c ht h
    rw [ts.expr.step, ht] at h
    rcases hfs : s.func_stack with _ | ⟨fc, fr⟩
    · simp [hfs] at h
    · by_cases hd : fc.depth = 1
      · rcases hpop : popToLParen s.opstack s.output with _ | ⟨ops, out⟩
        · simp [hfs, hd, hpop] at h
        · simp [hfs, hd, hpop] at h
          obtain ⟨h1, h2⟩ := h
          refine ⟨fc, fr, ops, out, rfl, hd, rfl, ?_, h2⟩
          rw [hd]
          exact h1.symm
      · simp [hfs, hd] at h
  · intro t peek s ht hbad
    rw [ts.expr.step, ht]
    rcases hfs : s.func_stack with _ | ⟨fc, fr⟩
    · exact ⟨"Unexpected ',' (commas are only valid inside function argument lists)",
        by simp [hfs]⟩
    · rcases hbad with hnil | hdep
      · rw [hfs] at hnil
        exact absurd hnil (by simp)
      · have hd := hdep fc fr hfs
        exact ⟨"Unexpected ',' (commas are only valid inside function argument lists)",
          by simp [hfs, hd]⟩
  · intro t peek s s2 c fc fr ht hfs hd h
    rw [ts.expr.step, ht, hfs] at h
    have hneg : ¬(fc.depth - 1 < 0) := by omega
    have hz : fc.depth - 1 = 0 := by omega
    rcases hpop : popToLParen s.opstack s.output with _ | ⟨ops, out⟩
    · simp [hneg, hpop] at h
    · rcases hops : ops.tail with _ | ⟨f, ops2⟩
      · simp [hneg, hpop, hz, hops] at h
      · by_cases hf : f.kind = .Func
        · by_cases hsaw : fc.saw_expr
          · simp [hneg, hpop, hz, hops, hf, hsaw] at h
            obtain ⟨h1, h2⟩ := h
            refine ⟨f, out, hf, ?_⟩
            rw [← h1]
            simp [hf]
          · simp [hneg, hpop, hz, hops, hf, hsaw] at h
        · simp [hneg, hpop, hz, hops, hf] at h
  · intro t peek s s2 c ht h
    rw [tsexpr.step, ht] at h
    rcases hpop : popToLParen s.opstack s.output with _ | ⟨ops, out⟩
    · simp [hpop] at h
    · rcases hfs : s.fnstack with _ | ⟨fc, fr⟩
      · simp [hpop, hfs] at h
      · simp [hpop, hfs] at h
        obtain ⟨h1, h2⟩ := h
        exact ⟨ops, out, fc, fr, rfl, rfl, h1.symm, h2⟩

/-- C3 witness: the comma rule applied inside a single-depth call frame with
the open paren on the operator stack. -/
theorem c3_comma_depth_discipline_witness :
    ∃ fc fr ops out,
      ([⟨0, 1, false⟩] : List ts.expr.FuncCtx) = fc :: fr ∧ fc.depth = 1 ∧
        popToLParen [{ kind := TokKind.LParen, text := "", number := 0, arity := 0 }] [] =
          some (ops, out) ∧
        ({ output := [], opstack := [{ kind := TokKind.LParen, text := "", number := 0, arity := 0 }],
            func_stack := [{ commas := 1, depth := 1, saw_expr := false }],
            expect_operand := true } : ts.expr.St) =
          { output := out, opstack := ops,
            func_stack := { fc with commas := fc.commas + 1 } :: fr,
            expect_operand := true } ∧ false = false :=
  c3_comma_depth_discipline.1 { kind := TokKind.Comma } none
    { output := [], opstack := [{ kind := TokKind.LParen, text := "", number := 0, arity := 0 }],
      func_stack := [⟨0, 1, false⟩], expect_operand := true } _ false rfl (by decide)

/-- C4: both precedence tables order additive below multiplicative below unary
negate (highest); unary negate is the only right-associative operator; the two
parsers' pop decisions coincide; a stacked operator is popped before the
incoming operator is pushed exactly when the stacked precedence is ≥ the
incoming left-associative operator's precedence, or strictly > for the
right-associative unary negate; and `y = x * 3 - 4` with scalar `x = 10`
stores `26`. -/
theorem c4_precedence_and_associativity :
    (ts.expr.precedence .Plus = ts.expr.precedence .Minus ∧
        ts.expr.precedence .Star = ts.expr.precedence .Slash ∧
        ts.expr.precedence .Plus < ts.expr.precedence .Star ∧
        ts.expr.precedence .Star < ts.expr.precedence .Neg) ∧
      (tsexpr.precedence .Plus = tsexpr.precedence .Minus ∧
        tsexpr.precedence .Star = tsexpr.precedence .Slash ∧
        tsexpr.precedence .Plus < tsexpr.precedence .Star ∧
        tsexpr.precedence .Star < tsexpr.precedence .Neg) ∧
      (ts.expr.is_right_associative .Neg = true ∧
        ts.expr.is_right_associative .Plus = false ∧
        ts.expr.is_right_associative .Minus = false ∧
        ts.expr.is_right_associative .Star = false ∧
        ts.expr.is_right_associative .Slash = false ∧
        tsexpr.is_right_assoc .Neg = true ∧
        tsexpr.is_right_assoc .Plus = false ∧
        tsexpr.is_right_assoc .Minus = false ∧
        tsexpr.is_right_assoc .Star = false ∧
        tsexpr.is_right_assoc .Slash = false) ∧
      (∀ cur top : TokKind, ts.expr.pop_it cur top = tsexpr.pop_it cur top) ∧
      (∀ (cur : TokKind) (tok : Token) (ops out : List Token),
        ts.expr.is_operator tok.kind = true →
        popOps ts.expr.is_operator ts.expr.pop_it cur (tok :: ops) out =
          if (if ts.expr.is_right_associative cur then
                ts.expr.precedence tok.kind > ts.expr.precedence cur
              else ts.expr.precedence tok.kind ≥ ts.expr.precedence cur)
          then popOps ts.expr.is_operator ts.expr.pop_it cur ops (out ++ [tok])
          else (tok :: ops, out)) ∧
      txPipeline "y = x * 3 - 4".toList [("x", toy.Value.scalar 10)] =
        .ok [("y", toy.Value.scalar 26), ("x", toy.Value.scalar 10)] := by
  refine ⟨by decide, by decide, by decide, ?_, ?_, by decide⟩
  · intro cur top
    cases cur <;> cases top <;> rfl
  intro cur tok ops out hop
  rw [popOps, ts.expr.pop_it]
  by_cases hpi : (if ts.expr.is_right_associative cur then
      ts.expr.precedence tok.kind > ts.expr.precedence cur
    else ts.expr.precedence tok.kind ≥ ts.expr.precedence cur)
  · rw [if_pos hpi]
    have : (ts.expr.is_operator tok.kind &&
        (if ts.expr.is_right_associative cur then
          decide (ts.expr.precedence cur < ts.expr.precedence tok.kind)
        else decide (ts.expr.precedence cur ≤ ts.expr.precedence tok.kind))) = true := by
      rw [hop]
      simp only [Bool.true_and]
      split
      · next hr => simp only [if_pos hr] at hpi; exact decide_eq_true hpi
      · next hr => simp only [if_neg hr] at hpi; exact decide_eq_true hpi
    rw [if_pos this]
  · rw [if_neg hpi]
    have : ¬((ts.expr.is_operator tok.kind &&
        (if ts.expr.is_right_associative cur then
          decide (ts.expr.precedence cur < ts.expr.precedence tok.kind)
        else decide (ts.expr.precedence cur ≤ ts.expr.precedence tok.kind))) = true) := by
      rw [hop]
      simp only [Bool.true_and]
      split
      · next hr => simp only [if_pos hr] at hpi; simpa using hpi
      · next hr => simp only [if_neg hr] at hpi; simpa using hpi
    rw [if_neg this]

/-- C4 witness: the pop rule applied with incoming `-` against stacked `*`
(multiplicative ≥ additive pops the `*` first). -/
theorem c4_precedence_and_associativity_witness :
    popOps ts.expr.is_operator ts.expr.pop_it .Minus
        [{ kind := TokKind.Star, text := "", number := 0, arity := 0 }] [] =
      if (if ts.expr.is_right_associative .Minus then
            ts.expr.precedence TokKind.Star > ts.expr.precedence .Minus
          else ts.expr.precedence TokKind.Star ≥ ts.expr.precedence .Minus)
      then popOps ts.expr.is_operator ts.expr.pop_it .Minus []
            ([] ++ [{ kind := TokKind.Star, text := "", number := 0, arity := 0 }])
      else ([{ kind := TokKind.Star, text := "", number := 0, arity := 0 }], []) :=
  (c4_precedence_and_associativity.2.2.2.2.1 .Minus
    { kind := TokKind.Star, text := "", number := 0, arity := 0 } [] [] (by decide))

/-! ### Operator-stack synchronisation for the ts::expr parser

To show `ts::expr::compile` never emits a zero-arity Call, we track how the
operator stack interleaves with the function-frame stack: above each function
marker sits its opening paren, and the segment above that paren holds exactly
`depth - 1` further open parens (the parens opened inside the call so far),
with no function markers loose in any segment. -/

/-- Number of open-paren tokens in a stack segment. -/
def countLP (l : List Token) : Nat :=
  l.countP (fun x => decide (x.kind = TokKind.LParen))

/-- Synchronisation between the operator stack and the function-frame depths
(innermost first). -/
inductive Sync : List Token → List Int → Prop
  | nil (op : List Token) (hnf : ∀ x ∈ op, x.kind ≠ .Func) : Sync op []
  | frame (stuff : List Token) (lp f : Token) (op' : List Token) (d : Int)
      (ds : List Int)
      (hnf : ∀ x ∈ stuff, x.kind ≠ .Func)
      (hlp : lp.kind = .LParen) (hf : f.kind = .Func)
      (hcount : (countLP stuff : Int) = d - 1) (hd : 1 ≤ d)
      (hrec : Sync op' ds) :
      Sync (stuff ++ lp :: f :: op') (d :: ds)

/-- Forward characterisation of the pop-to-paren loop: it removes a paren-free
prefix and stops with the first open paren on top. -/
theorem popToLParen_some :
    ∀ (op out ops out2 : List Token),
      popToLParen op out = some (ops, out2) →
      ∃ pre, op = pre ++ ops ∧ out2 = out ++ pre ∧
        (∀ x ∈ pre, x.kind ≠ .LParen) ∧
        ∃ lp rest, ops = lp :: rest ∧ lp.kind = .LParen := by
  intro op
  induction op with
  | nil => intro out ops out2 h; exact absurd h (by simp [popToLParen])
  | cons t r ih =>
    intro out ops out2 h
    rw [popToLParen] at h
    by_cases hlp : t.kind = .LParen
    · rw [if_pos hlp] at h
      simp only [Option.some.injEq, Prod.mk.injEq] at h
      exact ⟨[], by simp [← h.1], by simp [← h.2], by simp, t, r, h.1.symm, hlp⟩
    · rw [if_neg hlp] at h
      obtain ⟨pre, hop, hout, hnolp, lp, rest, hops, hlpk⟩ := ih (out ++ [t]) ops out2 h
      refine ⟨t :: pre, by simp [hop], by simp [hout], ?_, lp, rest, hops, hlpk⟩
      intro x hx
      rcases List.mem_cons.mp hx with rfl | hx2
      · exact hlp
      · exact hnolp x hx2

/-- Computation of the pop-to-paren loop on a decomposed stack. -/
theorem popToLParen_append :
    ∀ (stuff : List Token) (lp : Token) (rest out : List Token),
      (∀ x ∈ stuff, x.kind ≠ .LParen) → lp.kind = .LParen →
      popToLParen (stuff ++ lp :: rest) out = some (lp :: rest, out ++ stuff) := by
  intro stuff
  induction stuff with
  | nil => intro lp rest out _ hlp; simp [popToLParen, hlp]
  | cons t r ih =>
    intro lp rest out h hlp
    have ht : t.kind ≠ .LParen := h t (List.mem_cons_self t r)
    rw [List.cons_append, popToLParen, if_neg ht]
    rw [ih lp rest (out ++ [t]) (fun y hy => h y (List.mem_cons_of_mem t hy)) hlp]
    simp

/-- Splitting a segment at its first open paren. -/
theorem split_first_lparen :
    ∀ (l : List Token), 1 ≤ countLP l →
      ∃ pre lp rest, l = pre ++ lp :: rest ∧ (∀ x ∈ pre, x.kind ≠ .LParen) ∧
        lp.kind = .LParen ∧ countLP rest = countLP l - 1 := by
  intro l
  induction l with
  | nil => intro h; exact absurd h (by simp [countLP])
  | cons t r ih =>
    intro h
    by_cases hlp : t.kind = .LParen
    · refine ⟨[], t, r, by simp, by simp, hlp, ?_⟩
      simp [countLP, List.countP_cons, hlp]
    · have hr : 1 ≤ countLP r := by
        have : countLP (t :: r) = countLP r := by
          simp [countLP, List.countP_cons, hlp]
        omega
      obtain ⟨pre, lp, rest, heq, hpre, hlpk, hcnt⟩ := ih hr
      refine ⟨t :: pre, lp, rest, by simp [heq], ?_, hlpk, ?_⟩
      · intro x hx
        rcases List.mem_cons.mp hx with rfl | hx2
        · exact hlp
        · exact hpre x hx2
      · have : countLP (t :: r) = countLP r := by
          simp [countLP, List.countP_cons, hlp]
        omega

/-- Forward characterisation of the operator pop loop: it removes a prefix of
operator tokens satisfying the pop rule. -/
theorem popOps_some (isOp : TokKind → Bool) (popIt : TokKind → TokKind → Bool)
    (cur : TokKind) :
    ∀ (op out : List Token),
      ∃ pre rest, op = pre ++ rest ∧
        popOps isOp popIt cur op out = (rest, out ++ pre) ∧
        (∀ x ∈ pre, isOp x.kind = true) := by
  intro op
  induction op with
  | nil => intro out; exact ⟨[], [], rfl, by simp [popOps], by simp⟩
  | cons t r ih =>
    intro out
    by_cases hc : (isOp t.kind && popIt cur t.kind) = true
    · obtain ⟨pre, rest, heq, hres, hall⟩ := ih (out ++ [t])
      refine ⟨t :: pre, rest, by simp [heq], ?_, ?_⟩
      · rw [popOps, if_pos hc, hres]
        simp
      · intro x hx
        rcases List.mem_cons.mp hx with rfl | hx2
        · exact (Bool.and_eq_true_iff.mp hc).1
        · exact hall x hx2
    · refine ⟨[], t :: r, rfl, ?_, by simp⟩
      rw [popOps, if_neg hc]
      simp

/-- Operator kinds are neither function markers nor open parens. -/
theorem is_operator_kind_facts :
    ∀ k : TokKind, ts.expr.is_operator k = true → k ≠ .Func ∧ k ≠ .LParen := by
  intro k
  cases k <;> decide

/-- An all-operator popped prefix stays inside the segment above the first
function marker's paren. -/
theorem opPrefix_within_stuff :
    ∀ (pre rest stuff : List Token) (lp f : Token) (op' : List Token),
      pre ++ rest = stuff ++ lp :: f :: op' →
      (∀ x ∈ pre, ts.expr.is_operator x.kind = true) →
      lp.kind = .LParen →
      ∃ stuff2, stuff = pre ++ stuff2 ∧ rest = stuff2 ++ lp :: f :: op' := by
  intro pre
  induction pre with
  | nil =>
    intro rest stuff lp f op' heq _ _
    exact ⟨stuff, rfl, by simpa using heq⟩
  | cons p pr ih =>
    intro rest stuff lp f op' heq hall hlp
    cases stuff with
    | nil =>
      simp only [List.nil_append, List.cons_append, List.cons.injEq] at heq
      have hp := hall p (List.mem_cons_self p pr)
      rw [heq.1, hlp] at hp
      exact absurd hp (by decide)
    | cons s stuff1 =>
      simp only [List.cons_append, List.cons.injEq] at heq
      obtain ⟨stuff2, h1, h2⟩ :=
        ih rest stuff1 lp f op' heq.2 (fun y hy => hall y (List.mem_cons_of_mem p hy)) hlp
      exact ⟨stuff2, by simp [heq.1, h1], h2⟩

/-- A zero paren count means a paren-free segment. -/
theorem countLP_zero (l : List Token) (h : countLP l = 0) :
    ∀ x ∈ l, x.kind ≠ .LParen := by
  intro x hx
  have := List.countP_eq_zero.mp h x hx
  simpa using this

/-- The depth list ignores the saw-expression update on the innermost
frame. -/
theorem depths_saw_update (fs : List ts.expr.FuncCtx) (b : Bool) :
    (match fs with
      | c :: r =>
        if (decide (c.depth = 1) && b) = true then
          { c with saw_expr := true } :: r
        else c :: r
      | [] => []).map ts.expr.FuncCtx.depth = fs.map ts.expr.FuncCtx.depth := by
  cases fs with
  | nil => rfl
  | cons c r =>
    by_cases hc : (decide (c.depth = 1) && b) = true
    · simp [hc]
    · simp [hc]


/-- Pushing an operator after the operator pop loop preserves
synchronisation. -/
theorem popPush_sync (t : Token) (k : TokKind) (op o : List Token)
    (ds : List Int) (pre rest : List Token)
    (hpr : op = pre ++ rest)
    (hall : ∀ x ∈ pre, ts.expr.is_operator x.kind = true)
    (hk : ts.expr.is_operator k = true)
    (hsync : Sync op ds)
    (hout : ∀ x ∈ o, x.kind = .Func → 1 ≤ x.arity) :
    Sync ({ t with kind := k } :: rest) ds ∧
      ∀ x ∈ o ++ pre, x.kind = .Func → 1 ≤ x.arity := by
  have hpush : ({ t with kind := k } : Token).kind ≠ .Func := by
    simp only
    exact (is_operator_kind_facts k hk).1
  have houtnew : ∀ x ∈ o ++ pre, x.kind = .Func → 1 ≤ x.arity := by
    intro x hx
    rcases List.mem_append.mp hx with hx1 | hx2
    · exact hout x hx1
    · intro hfk
      have := hall x hx2
      rw [hfk] at this
      exact absurd this (by decide)
  cases hsync with
  | nil _ hnf =>
    refine ⟨Sync.nil _ ?_, houtnew⟩
    intro x hx
    rcases List.mem_cons.mp hx with rfl | hx2
    · exact hpush
    · exact hnf x (by rw [hpr]; exact List.mem_append.mpr (Or.inr hx2))
  | frame stuff lp f op' d ds hnf hlp hf hcount hdge hrec =>
    obtain ⟨stuff2, hst, hrest⟩ :=
      opPrefix_within_stuff pre rest stuff lp f op' (by rw [← hpr]) hall hlp
    have hpreLP : countLP pre = 0 := by
      rw [countLP, List.countP_eq_zero]
      intro x hx
      have := (is_operator_kind_facts x.kind (hall x hx)).2
      simpa using this
    refine ⟨?_, houtnew⟩
    rw [hrest]
    have := Sync.frame ({ t with kind := k } :: stuff2) lp f op' d ds ?_ hlp hf ?_ hdge hrec
    · simpa using this
    · intro x hx
      rcases List.mem_cons.mp hx with rfl | hx2
      · exact hpush
      · exact hnf x (by rw [hst]; exact List.mem_append.mpr (Or.inr hx2))
    · have hsplit : countLP stuff = countLP pre + countLP stuff2 := by
        rw [hst, countLP, countLP, countLP, List.countP_append]
      have : countLP ({ t with kind := k } :: stuff2) = countLP stuff2 := by
        rw [countLP, countLP, List.countP_cons]
        have hknotlp := (is_operator_kind_facts k hk).2
        simp [hknotlp]
      omega

/-- One parser step preserves stack synchronisation and the invariant that
every function token already in the output has arity at least 1. -/
theorem step_sync (t : Token) (peek : Option Token) (s s2 : ts.expr.St) (c : Bool)
    (hstep : ts.expr.step t peek s = .ok (s2, c))
    (hsync : Sync s.opstack (s.func_stack.map ts.expr.FuncCtx.depth))
    (hout : ∀ x ∈ s.output, x.kind = .Func → 1 ≤ x.arity) :
    Sync s2.opstack (s2.func_stack.map ts.expr.FuncCtx.depth) ∧
      ∀ x ∈ s2.output, x.kind = .Func → 1 ≤ x.arity := by
  obtain ⟨o, op, fs, e⟩ := s
  simp only at hsync hout
  cases ht : t.kind
  case Ident =>
    rw [ts.expr.step, ht] at hstep
    by_cases hp : peek.map Token.kind = some TokKind.LParen
    · simp [hp] at hstep
      obtain ⟨h1, h2⟩ := hstep
      subst h1
      rcases peek with _ | p
      · exact absurd hp (by simp)
      · have hpk : p.kind = .LParen := by simpa using hp
        refine ⟨?_, hout⟩
        simp only [Option.getD, List.map_cons]
        have := Sync.frame [] p { kind := TokKind.Func, text := t.text } op 1
          (fs.map ts.expr.FuncCtx.depth) (by simp) hpk rfl (by simp [countLP]) (by omega)
          hsync
        simpa using this
    · rcases fs with _ | ⟨fc, fr⟩
      · simp [hp] at hstep
        obtain ⟨h1, h2⟩ := hstep
        subst h1
        refine ⟨by simpa using hsync, ?_⟩
        intro x hx
        rcases List.mem_append.mp hx with hx1 | hx2
        · exact hout x hx1
        · intro hk
          rw [List.mem_singleton.mp hx2] at hk
          rw [ht] at hk
          exact absurd hk (by decide)
      · simp [hp] at hstep
        obtain ⟨h1, h2⟩ := hstep
        subst h1
        constructor
        · by_cases hcond : fc.depth = 1 ∧ e = true
          · simpa [hcond] using hsync
          · simpa [hcond] using hsync
        · intro x hx
          rcases List.mem_append.mp hx with hx1 | hx2
          · exact hout x hx1
          · intro hk
            rw [List.mem_singleton.mp hx2] at hk
            rw [ht] at hk
            exact absurd hk (by decide)
  case Number =>
    rw [ts.expr.step, ht] at hstep
    rcases fs with _ | ⟨fc, fr⟩
    · simp at hstep
      obtain ⟨h1, h2⟩ := hstep
      subst h1
      refine ⟨by simpa using hsync, ?_⟩
      intro x hx
      rcases List.mem_append.mp hx with hx1 | hx2
      · exact hout x hx1
      · intro hk
        rw [List.mem_singleton.mp hx2] at hk
        rw [ht] at hk
        exact absurd hk (by decide)
    · simp at hstep
      obtain ⟨h1, h2⟩ := hstep
      subst h1
      constructor
      · by_cases hcond : fc.depth = 1 ∧ e = true
        · simpa [hcond] using hsync
        · simpa [hcond] using hsync
      · intro x hx
        rcases List.mem_append.mp hx with hx1 | hx2
        · exact hout x hx1
        · intro hk
          rw [List.mem_singleton.mp hx2] at hk
          rw [ht] at hk
          exact absurd hk (by decide)
  case Comma =>
    rw [ts.expr.step, ht] at hstep
    rcases fs with _ | ⟨fc, fr⟩
    · simp at hstep
    · by_cases hd : fc.depth = 1
      · rcases hpop : popToLParen op o with _ | ⟨ops, out2⟩
        · simp [hd, hpop] at hstep
        · simp [hd, hpop] at hstep
          obtain ⟨h1, h2⟩ := hstep
          simp only [List.map_cons] at hsync
          cases hsync with
          | frame stuff lp f op' d ds hnf hlp hf hcount hdge hrec =>
            have hstuff : ∀ x ∈ stuff, x.kind ≠ .LParen := by
              apply countLP_zero
              rw [hd] at hcount
              omega
            have hcomp := popToLParen_append stuff lp (f :: op') o hstuff hlp
            rw [hcomp] at hpop
            injection hpop with hpop1
            injection hpop1 with hpopa hpopb
            refine ⟨?_, ?_⟩
            · rw [← h1]
              simp only [List.map_cons]
              rw [← hpopa]
              have := Sync.frame [] lp f op' 1 (fr.map ts.expr.FuncCtx.depth)
                (by simp) hlp hf (by simp [countLP]) (by omega) hrec
              simpa using this
            · rw [← h1]
              intro x hx
              simp only at hx
              rw [← hpopb] at hx
              rcases List.mem_append.mp hx with hx1 | hx2
              · exact hout x hx1
              · intro hk
                exact absurd hk (hnf x hx2)
      · simp [hd] at hstep
  case LParen =>
    rw [ts.expr.step, ht] at hstep
    rcases fs with _ | ⟨fc, fr⟩
    · simp at hstep
      obtain ⟨h1, h2⟩ := hstep
      subst h1
      refine ⟨?_, hout⟩
      simp only [List.map_nil] at hsync ⊢
      cases hsync with
      | nil _ hnf =>
        refine Sync.nil _ ?_
        intro x hx
        rcases List.mem_cons.mp hx with rfl | hx2
        · rw [ht]; decide
        · exact hnf x hx2
    · simp only [List.map_cons] at hsync
      cases hsync with
      | frame stuff lp f op' d ds hnf hlp hf hcount hdge hrec =>
        have hnew : Sync (t :: (stuff ++ lp :: f :: op'))
            ((fc.depth + 1) :: fr.map ts.expr.FuncCtx.depth) := by
          have := Sync.frame (t :: stuff) lp f op' (fc.depth + 1)
            (fr.map ts.expr.FuncCtx.depth) ?_ hlp hf ?_ (by omega) hrec
          · simpa using this
          · intro x hx
            rcases List.mem_cons.mp hx with rfl | hx2
            · rw [ht]; decide
            · exact hnf x hx2
          · rw [show countLP (t :: stuff) = countLP stuff + 1 from by
                simp [countLP, List.countP_cons, ht]]
            push_cast
            omega
        simp at hstep
        obtain ⟨h1, h2⟩ := hstep
        subst h1
        constructor
        · by_cases hcond : fc.depth + 1 = 2 ∧ e = true
          · simpa [hcond] using hnew
          · simpa [hcond] using hnew
        · exact hout
  case RParen =>
    rw [ts.expr.step, ht] at hstep
    rcases fs with _ | ⟨fc, fr⟩
    · simp only at hstep
      rcases hpop : popToLParen op o with _ | ⟨ops, out2⟩
      · simp [hpop] at hstep
      · simp [hpop] at hstep
        obtain ⟨h1, h2⟩ := hstep
        subst h1
        obtain ⟨pre, hop, hout2, hnolp, lp, rest, hopseq, hlpk⟩ :=
          popToLParen_some op o ops out2 hpop
        simp only [List.map_nil] at hsync
        cases hsync with
        | nil _ hnf =>
          refine ⟨?_, ?_⟩
          · simp only [List.map_nil]
            refine Sync.nil _ ?_
            intro x hx
            apply hnf
            rw [hop]
            refine List.mem_append.mpr (Or.inr ?_)
            rw [hopseq]
            exact List.mem_of_mem_tail (hopseq ▸ hx)
          · intro x hx
            simp only at hx
            rw [hout2] at hx
            rcases List.mem_append.mp hx with hx1 | hx2
            · exact hout x hx1
            · intro hk
              refine absurd hk (hnf x ?_)
              rw [hop]
              exact List.mem_append.mpr (Or.inl hx2)
    · simp only [List.map_cons] at hsync
      cases hsync with
      | frame stuff lp0 f0 op' d ds hnf hlp0 hf0 hcount hdge hrec =>
        by_cases hneg : fc.depth - 1 < 0
        · simp [hneg] at hstep
        · by_cases hz : fc.depth - 1 = 0
          · -- closes the function: the first open paren is the call's own
            have hstuff : ∀ x ∈ stuff, x.kind ≠ .LParen := by
              apply countLP_zero
              omega
            have hcomp := popToLParen_append stuff lp0 (f0 :: op') o hstuff hlp0
            by_cases hsaw : fc.saw_expr
            · simp [hneg, hz, hcomp, hf0, hsaw] at hstep
              obtain ⟨h1, h2⟩ := hstep
              refine ⟨?_, ?_⟩
              · rw [← h1]
                simpa using hrec
              · rw [← h1]
                intro x hx
                simp only at hx
                rcases List.mem_append.mp hx with hx1 | hx2
                · exact hout x hx1
                · rcases List.mem_append.mp hx2 with hx3 | hx4
                  · intro hk
                    exact absurd hk (hnf x hx3)
                  · intro _
                    rw [List.mem_singleton.mp hx4]
                    show (1 : Int) ≤ (fc.commas : Int) + 1
                    omega
            · simp [hneg, hz, hcomp, hf0, hsaw] at hstep
          · -- inner close: pop to a paren strictly inside the segment
            have hge1 : 1 ≤ countLP stuff := by omega
            obtain ⟨pre, lpin, stuff2, hsp, hpre, hlpin, hcnt2⟩ := split_first_lparen stuff hge1
            have hcomp := popToLParen_append pre lpin (stuff2 ++ lp0 :: f0 :: op') o hpre hlpin
            have hops : stuff ++ lp0 :: f0 :: op' = pre ++ lpin :: (stuff2 ++ lp0 :: f0 :: op') := by
              rw [hsp]
              simp
            rw [← hops] at hcomp
            simp [hneg, hz, hcomp] at hstep
            obtain ⟨h1, h2⟩ := hstep
            refine ⟨?_, ?_⟩
            · rw [← h1]
              simp only [List.map_cons]
              have := Sync.frame stuff2 lp0 f0 op' (fc.depth - 1)
                (fr.map ts.expr.FuncCtx.depth) ?_ hlp0 hf0 ?_ (by omega) hrec
              · exact this
              · intro x hx
                apply hnf
                rw [hsp]
                exact List.mem_append.mpr (Or.inr (List.mem_cons_of_mem lpin hx))
              · rw [hcnt2]
                omega
            · rw [← h1]
              intro x hx
              simp only at hx
              rcases List.mem_append.mp hx with hx1 | hx2
              · exact hout x hx1
              · intro hk
                refine absurd hk (hnf x ?_)
                rw [hsp]
                exact List.mem_append.mpr (Or.inl hx2)
  case Minus =>
    rw [ts.expr.step, ht] at hstep
    by_cases he : e = true
    · simp [he, ts.expr.is_operator] at hstep
      obtain ⟨h1, h2⟩ := hstep
      subst h1
      obtain ⟨pre, rest, hpr, hres, hall⟩ :=
        popOps_some ts.expr.is_operator ts.expr.pop_it .Neg op o
      rw [hres]
      exact popPush_sync t .Neg op o (fs.map ts.expr.FuncCtx.depth) pre rest hpr hall
        (by decide) hsync hout
    · have he2 : e = false := by simpa using he
      simp [he2, ts.expr.is_operator] at hstep
      obtain ⟨h1, h2⟩ := hstep
      subst h1
      obtain ⟨pre, rest, hpr, hres, hall⟩ :=
        popOps_some ts.expr.is_operator ts.expr.pop_it .Minus op o
      rw [hres]
      exact popPush_sync t .Minus op o (fs.map ts.expr.FuncCtx.depth) pre rest hpr hall
        (by decide) hsync hout
  case Plus =>
    rw [ts.expr.step, ht] at hstep
    simp [ts.expr.is_operator] at hstep
    obtain ⟨h1, h2⟩ := hstep
    subst h1
    obtain ⟨pre, rest, hpr, hres, hall⟩ :=
      popOps_some ts.expr.is_operator ts.expr.pop_it .Plus op o
    rw [hres]
    exact popPush_sync t .Plus op o (fs.map ts.expr.FuncCtx.depth) pre rest hpr hall
      (by decide) hsync hout
  case Star =>
    rw [ts.expr.step, ht] at hstep
    simp [ts.expr.is_operator] at hstep
    obtain ⟨h1, h2⟩ := hstep
    subst h1
    obtain ⟨pre, rest, hpr, hres, hall⟩ :=
      popOps_some ts.expr.is_operator ts.expr.pop_it .Star op o
    rw [hres]
    exact popPush_sync t .Star op o (fs.map ts.expr.FuncCtx.depth) pre rest hpr hall
      (by decide) hsync hout
  case Slash =>
    rw [ts.expr.step, ht] at hstep
    simp [ts.expr.is_operator] at hstep
    obtain ⟨h1, h2⟩ := hstep
    subst h1
    obtain ⟨pre, rest, hpr, hres, hall⟩ :=
      popOps_some ts.expr.is_operator ts.expr.pop_it .Slash op o
    rw [hres]
    exact popPush_sync t .Slash op o (fs.map ts.expr.FuncCtx.depth) pre rest hpr hall
      (by decide) hsync hout
  case Neg =>
    rw [ts.expr.step, ht] at hstep
    simp [ts.expr.is_operator] at hstep
    obtain ⟨h1, h2⟩ := hstep
    subst h1
    obtain ⟨pre, rest, hpr, hres, hall⟩ :=
      popOps_some ts.expr.is_operator ts.expr.pop_it .Neg op o
    rw [hres]
    exact popPush_sync t .Neg op o (fs.map ts.expr.FuncCtx.depth) pre rest hpr hall
      (by decide) hsync hout
  case Assign =>
    rw [ts.expr.step, ht] at hstep
    simp [ts.expr.is_operator] at hstep
  case TEnd =>
    rw [ts.expr.step, ht] at hstep
    simp [ts.expr.is_operator] at hstep
  case Func =>
    rw [ts.expr.step, ht] at hstep
    simp [ts.expr.is_operator] at hstep

/-- The whole token loop preserves the invariants, by strong induction on the
remaining tokens. -/
theorem loop_sync :
    ∀ (n : Nat) (ts0 : List Token) (s s2 : ts.expr.St),
      ts0.length ≤ n →
      ts.expr.loop ts0 s = .ok s2 →
      Sync s.opstack (s.func_stack.map ts.expr.FuncCtx.depth) →
      (∀ x ∈ s.output, x.kind = .Func → 1 ≤ x.arity) →
      Sync s2.opstack (s2.func_stack.map ts.expr.FuncCtx.depth) ∧
        ∀ x ∈ s2.output, x.kind = .Func → 1 ≤ x.arity := by
  intro n
  induction n with
  | zero =>
    intro ts0 s s2 hlen h hsync hout
    have h0 : ts0 = [] := List.length_eq_zero.mp (Nat.le_zero.mp hlen)
    subst h0
    rw [ts.expr.loop] at h
    injection h with h1
    subst h1
    exact ⟨hsync, hout⟩
  | succ n ih =>
    intro ts0 s s2 hlen h hsync hout
    cases ts0 with
    | nil =>
      rw [ts.expr.loop] at h
      injection h with h1
      subst h1
      exact ⟨hsync, hout⟩
    | cons t rest =>
      rw [ts.expr.loop] at h
      by_cases hte : t.kind = .TEnd
      · rw [if_pos hte] at h
        injection h with h1
        subst h1
        exact ⟨hsync, hout⟩
      · rw [if_neg hte] at h
        rcases hst : ts.expr.step t rest.head? s with e | ⟨s3, c⟩ <;> rw [hst] at h
        · exact absurd h (by simp)
        · obtain ⟨hs3, ho3⟩ := step_sync t rest.head? s s3 c hst hsync hout
          by_cases hc : c = true
          · rw [hc] at h
            simp only [if_true] at h
            cases rest with
            | nil =>
              injection h with h1
              subst h1
              exact ⟨hs3, ho3⟩
            | cons p r2 =>
              refine ih r2 s3 s2 ?_ h hs3 ho3
              simp only [List.length_cons] at hlen
              omega
          · have hc2 : c = false := by simpa using hc
            rw [hc2] at h
            simp only [Bool.false_eq_true, if_false] at h
            refine ih rest s3 s2 ?_ h hs3 ho3
            simp only [List.length_cons] at hlen
            omega

/-- The drain loop only moves non-function tokens to the output. -/
theorem drainOps_arity :
    ∀ (op out res : List Token), drainOps op out = .ok res →
      (∀ x ∈ out, x.kind = .Func → 1 ≤ x.arity) →
      ∀ x ∈ res, x.kind = .Func → 1 ≤ x.arity := by
  intro op
  induction op with
  | nil =>
    intro out res h hout
    rw [drainOps] at h
    injection h with h1
    subst h1
    exact hout
  | cons t r ih =>
    intro out res h hout
    rw [drainOps] at h
    by_cases h1 : t.kind = .LParen
    · rw [if_pos h1] at h
      exact absurd h (by simp)
    · rw [if_neg h1] at h
      by_cases h2 : t.kind = .Func
      · rw [if_pos h2] at h
        exact absurd h (by simp)
      · rw [if_neg h2] at h
        refine ih (out ++ [t]) res h ?_
        intro x hx
        rcases List.mem_append.mp hx with hx1 | hx2
        · exact hout x hx1
        · intro hk
          rw [List.mem_singleton.mp hx2] at hk
          exact absurd hk h2

/-- C2 amended: the `ts::expr` compiler rejects a syntactically empty argument
list — for every target and function name, `z = f()` fails with the parse
error "Function call has empty argument list" — and it never produces a
function token of arity 0: every Func token in a successfully compiled RPN has
arity at least 1.  (The `tsexpr` compiler violates the original claim: it
accepts `z = f()` and emits `Call f` with argc 0 — see the counterexample.) -/
theorem c2_empty_call_rejected_and_arity_positive :
    (∀ target fname : String,
        ts.expr.compile
            [{ kind := .Ident, text := target }, { kind := .Assign },
              { kind := .Ident, text := fname }, { kind := .LParen }, { kind := .RParen }] =
          .error "Function call has empty argument list") ∧
      (∀ (toks : List Token) (cp : ts.expr.Compiled),
        ts.expr.compile toks = .ok cp →
        ∀ x ∈ cp.rpn, x.kind = .Func → 1 ≤ x.arity) := by
  constructor
  · intro target fname
    rfl
  · intro toks cp hc
    rcases toks with _ | ⟨lhs, rest⟩
    · exact absurd hc (by simp [ts.expr.compile])
    · rw [ts.expr.compile.eq_def] at hc
      dsimp only at hc
      by_cases h1 : lhs.kind = .Ident
      · rw [if_neg (by simp [h1])] at hc
        rcases rest with _ | ⟨eqt, rest2⟩
        · exact absurd hc (by simp)
        · dsimp only at hc
          by_cases h2 : eqt.kind = .Assign
          · rw [if_neg (by simp [h2])] at hc
            rcases hloop : ts.expr.loop rest2 {} with e | s <;> rw [hloop] at hc <;>
              dsimp only at hc
            · exact absurd hc (by simp)
            · rcases hdrain : drainOps s.opstack s.output with e | out2 <;>
                rw [hdrain] at hc
              · exact absurd hc (by simp)
              · injection hc with hc1
                obtain ⟨hs, ho⟩ := loop_sync rest2.length rest2 {} s (le_refl _) hloop
                  (Sync.nil _ (by simp)) (by simp)
                intro x hx
                rw [← hc1] at hx
                exact drainOps_arity s.opstack s.output out2 hdrain ho x hx
          · rw [if_pos (by simp [h2])] at hc
            exact absurd hc (by simp)
      · rw [if_pos (by simp [h1])] at hc
        exact absurd hc (by simp)

/-- C2 witness: compiling `z = sumproduct(a, b)` succeeds, and the theorem
guarantees its Call token's arity (here 2) is at least 1. -/
theorem c2_empty_call_rejected_and_arity_positive_witness :
    1 ≤ ({ kind := TokKind.Func, text := "sumproduct", number := 0, arity := 2 } : Token).arity :=
  c2_empty_call_rejected_and_arity_positive.2
    [{ kind := .Ident, text := "z" }, { kind := .Assign },
      { kind := .Ident, text := "sumproduct" }, { kind := .LParen },
      { kind := .Ident, text := "a" }, { kind := .Comma },
      { kind := .Ident, text := "b" }, { kind := .RParen }]
    { target := "z",
      rpn := [{ kind := .Ident, text := "a" }, { kind := .Ident, text := "b" },
              { kind := TokKind.Func, text := "sumproduct", number := 0, arity := 2 }] }
    (by decide)
    { kind := TokKind.Func, text := "sumproduct", number := 0, arity := 2 }
    (by decide) rfl

/-! ### Executor composition and store-atomicity lemmas -/

/-- Sequential decomposition of the instruction loop. -/
theorem execGo_append {V S : Type} (B : tsexpr.StackBackend V S) :
    ∀ (l1 l2 : List tsexpr.Instr) (st : List V) (s : S),
      tsexpr.execGo B (l1 ++ l2) st s =
        match tsexpr.execGo B l1 st s with
        | .error es => .error es
        | .ok (st2, s2) => tsexpr.execGo B l2 st2 s2 := by
  intro l1
  induction l1 with
  | nil => intro l2 st s; rfl
  | cons i r ih =>
    intro l2 st s
    rw [List.cons_append, tsexpr.execGo, tsexpr.execGo]
    rcases hi : tsexpr.execInstr B i st s with e | ⟨st2, s2⟩
    · rfl
    · exact ih l2 st2 s2

/-- Lowered RPN contains no Store instruction. -/
theorem lowerToks_no_store :
    ∀ (rpn : List Token) (code : List tsexpr.Instr),
      tsexpr.lowerToks rpn = .ok code → ∀ i ∈ code, i.op ≠ tsexpr.Op.Store := by
  intro rpn
  induction rpn with
  | nil =>
    intro code h
    rw [tsexpr.lowerToks] at h
    injection h with h1
    subst h1
    simp
  | cons t r ih =>
    intro code h
    rw [tsexpr.lowerToks] at h
    cases ht : t.kind <;> rw [ht] at h <;> dsimp only at h
    case Ident =>
      rcases hrec : tsexpr.lowerToks r with e2 | code2 <;> rw [hrec] at h
      · exact absurd h (by simp)
      · injection h with h1
        subst h1
        intro i hi
        rcases List.mem_cons.mp hi with rfl | hi2
        · simp
        · exact ih code2 hrec i hi2
    case Number =>
      rcases hrec : tsexpr.lowerToks r with e2 | code2 <;> rw [hrec] at h
      · exact absurd h (by simp)
      · injection h with h1
        subst h1
        intro i hi
        rcases List.mem_cons.mp hi with rfl | hi2
        · simp
        · exact ih code2 hrec i hi2
    case Comma => exact absurd h (by simp)
    case LParen => exact absurd h (by simp)
    case RParen => exact absurd h (by simp)
    case Assign => exact absurd h (by simp)
    case TEnd => exact absurd h (by simp)
    case Plus =>
      rcases hrec : tsexpr.lowerToks r with e2 | code2 <;> rw [hrec] at h
      · exact absurd h (by simp)
      · injection h with h1
        subst h1
        intro i hi
        rcases List.mem_cons.mp hi with rfl | hi2
        · simp
        · exact ih code2 hrec i hi2
    case Minus =>
      rcases hrec : tsexpr.lowerToks r with e2 | code2 <;> rw [hrec] at h
      · exact absurd h (by simp)
      · injection h with h1
        subst h1
        intro i hi
        rcases List.mem_cons.mp hi with rfl | hi2
        · simp
        · exact ih code2 hrec i hi2
    case Star =>
      rcases hrec : tsexpr.lowerToks r with e2 | code2 <;> rw [hrec] at h
      · exact absurd h (by simp)
      · injection h with h1
        subst h1
        intro i hi
        rcases List.mem_cons.mp hi with rfl | hi2
        · simp
        · exact ih code2 hrec i hi2
    case Slash =>
      rcases hrec : tsexpr.lowerToks r with e2 | code2 <;> rw [hrec] at h
      · exact absurd h (by simp)
      · injection h with h1
        subst h1
        intro i hi
        rcases List.mem_cons.mp hi with rfl | hi2
        · simp
        · exact ih code2 hrec i hi2
    case Func =>
      rcases hrec : tsexpr.lowerToks r with e2 | code2 <;> rw [hrec] at h
      · exact absurd h (by simp)
      · injection h with h1
        subst h1
        intro i hi
        rcases List.mem_cons.mp hi with rfl | hi2
        · simp
        · exact ih code2 hrec i hi2
    case Neg =>
      rcases hrec : tsexpr.lowerToks r with e2 | code2 <;> rw [hrec] at h
      · exact absurd h (by simp)
      · injection h with h1
        subst h1
        intro i hi
        rcases List.mem_cons.mp hi with rfl | hi2
        · simp
        · exact ih code2 hrec i hi2

/-- Executing non-Store instructions never touches the backend state, even on
failure. -/
theorem execGo_no_store {V S : Type} (B : tsexpr.StackBackend V S) :
    ∀ (l : List tsexpr.Instr) (st : List V) (s : S),
      (∀ i ∈ l, i.op ≠ tsexpr.Op.Store) →
      (∀ e s2, tsexpr.execGo B l st s = .error (e, s2) → s2 = s) ∧
        (∀ st2 s2, tsexpr.execGo B l st s = .ok (st2, s2) → s2 = s) := by
  intro l
  induction l with
  | nil =>
    intro st s _
    constructor
    · intro e s2 h
      exact absurd h (by rw [tsexpr.execGo]; simp)
    · intro st2 s2 h
      rw [tsexpr.execGo] at h
      injection h with h1
      injection h1 with ha hb
      exact hb.symm
  | cons i r ih =>
    intro st s hns
    have hi := hns i (List.mem_cons_self i r)
    have hstate : ∀ st2 s2, tsexpr.execInstr B i st s = .ok (st2, s2) → s2 = s := by
      intro st2 s2 h
      rw [tsexpr.execInstr.eq_def] at h
      cases hop : i.op <;> rw [hop] at h <;> dsimp only at h
      case PushVar =>
        rcases hv : B.load_var s i.text with e | v <;> rw [hv] at h <;> simp at h
        exact h.2.symm
      case PushNum =>
        simp at h
        exact h.2.symm
      case Neg =>
        rcases st with _ | ⟨a, st3⟩
        · simp at h
        · rcases hv : B.neg a with e | v <;> simp [hv] at h
          exact h.2.symm
      case Add =>
        rcases st with _ | ⟨b, st3⟩
        · simp at h
        · rcases st3 with _ | ⟨a, st4⟩
          · simp at h
          · rcases hv : B.binary tsexpr.Op.Add a b with e | v <;> simp [hv] at h
            exact h.2.symm
      case Sub =>
        rcases st with _ | ⟨b, st3⟩
        · simp at h
        · rcases st3 with _ | ⟨a, st4⟩
          · simp at h
          · rcases hv : B.binary tsexpr.Op.Sub a b with e | v <;> simp [hv] at h
            exact h.2.symm
      case Mul =>
        rcases st with _ | ⟨b, st3⟩
        · simp at h
        · rcases st3 with _ | ⟨a, st4⟩
          · simp at h
          · rcases hv : B.binary tsexpr.Op.Mul a b with e | v <;> simp [hv] at h
            exact h.2.symm
      case Div =>
        rcases st with _ | ⟨b, st3⟩
        · simp at h
        · rcases st3 with _ | ⟨a, st4⟩
          · simp at h
          · rcases hv : B.binary tsexpr.Op.Div a b with e | v <;> simp [hv] at h
            exact h.2.symm
      case Call =>
        by_cases hneg : i.argc < 0
        · simp [hneg] at h
        · by_cases hlen : i.argc.toNat > st.length
          · simp [hneg, hlen] at h
          · rcases hv : B.call i.text ((st.take i.argc.toNat).reverse) with e | v <;>
              simp [hneg, hlen, hv] at h
            exact h.2.symm
      case Store => exact absurd hop hi
    constructor
    · intro e s2 h
      rw [tsexpr.execGo] at h
      rcases hins : tsexpr.execInstr B i st s with e2 | ⟨st3, s3⟩ <;> rw [hins] at h
      · injection h with h1
        injection h1 with ha hb
        exact hb.symm
      · have hs3 : s3 = s := hstate st3 s3 hins
        have hres := (ih st3 s3 (fun j hj => hns j (List.mem_cons_of_mem i hj))).1 e s2 h
        exact hres.trans hs3
    · intro st2 s2 h
      rw [tsexpr.execGo] at h
      rcases hins : tsexpr.execInstr B i st s with e2 | ⟨st3, s3⟩ <;> rw [hins] at h
      · exact absurd h (by simp)
      · have hs3 : s3 = s := hstate st3 s3 hins
        have hres := (ih st3 s3 (fun j hj => hns j (List.mem_cons_of_mem i hj))).2 st2 s2 h
        exact hres.trans hs3

/-- Shape of a compiled tsexpr program: lowered RPN (Store-free) followed by
exactly one trailing Store of the target. -/
theorem compile_code_shape :
    ∀ (toks : List Token) (p : tsexpr.Program), tsexpr.compile toks = .ok p →
      ∃ (code : List tsexpr.Instr) (target : String),
        p.code = code ++ [{ op := tsexpr.Op.Store, text := target }] ∧
          ∀ i ∈ code, i.op ≠ tsexpr.Op.Store := by
  intro toks p h
  rw [tsexpr.compile.eq_def] at h
  rcases toks with _ | ⟨lhs, rest⟩
  · exact absurd h (by simp)
  · dsimp only at h
    by_cases h1 : lhs.kind ≠ TokKind.Ident
    · rw [if_pos h1] at h
      exact absurd h (by simp)
    · rw [if_neg h1] at h
      rcases rest with _ | ⟨eq, rest2⟩
      · exact absurd h (by simp)
      · dsimp only at h
        by_cases h2 : eq.kind ≠ TokKind.Assign
        · rw [if_pos h2] at h
          exact absurd h (by simp)
        · rw [if_neg h2] at h
          rcases rest2 with _ | ⟨f, rest3⟩
          · exact absurd h (by simp)
          · dsimp only at h
            by_cases h3 : f.kind = TokKind.TEnd
            · rw [if_pos h3] at h
              exact absurd h (by simp)
            · rw [if_neg h3] at h
              rcases hr : tsexpr.to_rpn (f :: rest3) with e | rpn <;> rw [hr] at h <;>
                dsimp only at h
              · exact absurd h (by simp)
              · rcases hl : tsexpr.lowerToks rpn with e | code <;> rw [hl] at h <;>
                  dsimp only at h
                · exact absurd h (by simp)
                · injection h with h4
                  subst h4
                  exact ⟨code, lhs.text, rfl, lowerToks_no_store rpn code hl⟩

/-- The program tsexpr compiles from `z = q + 1`, used as the C8 witness. -/
def c8prog : tsexpr.Program :=
  { code := [{ op := tsexpr.Op.PushVar, text := "q" },
             { op := tsexpr.Op.PushNum, number := 1 },
             { op := tsexpr.Op.Add },
             { op := tsexpr.Op.Store, text := "z" }] }

/-- C8: failure is atomic with respect to the variable store.  If a compiled
tsexpr program's execution raises an evaluation error, the backend state
carried out with the error is exactly the state passed in (the Store
instruction is last and the lowered code before it is Store-free, so the
failure precedes any store); and if `ts::expr::execute_assignment` fails at
any stage (tokenizer, parser, or evaluator), the environment is returned
untouched. -/
theorem c8_failure_atomicity :
    (∀ (input : List Char) (p : tsexpr.Program) {V S : Type}
        (B : tsexpr.StackBackend V S) (s : S) (e : String) (s2 : S),
      tsexpr.compileText input = .ok p →
      tsexpr.Program.execute p B s = .error (e, s2) → s2 = s) ∧
    (∀ (input : List Char) (env : ts.expr.Env) (e : String) (env2 : ts.expr.Env),
      ts.expr.execute_assignment input env = .error (e, env2) → env2 = env) := by
  constructor
  · intro input p V S B s e s2 hc hx
    rw [tsexpr.compileText] at hc
    rcases ht : tokenize input with e2 | toks <;> rw [ht] at hc
    · exact absurd hc (by simp)
    · obtain ⟨code, target, hcode, hns⟩ := compile_code_shape toks p hc
      rw [tsexpr.Program.execute, hcode, execGo_append] at hx
      rcases h1 : tsexpr.execGo B code [] s with ⟨e4, s4⟩ | ⟨st4, s4⟩ <;>
        rw [h1] at hx <;> dsimp only at hx
      · injection hx with h5
        injection h5 with ha hb
        exact hb.symm.trans ((execGo_no_store B code [] s hns).1 e4 s4 h1)
      · have hs4 : s4 = s := (execGo_no_store B code [] s hns).2 st4 s4 h1
        rw [tsexpr.execGo] at hx
        rcases st4 with _ | ⟨v, st5⟩
        · rw [show tsexpr.execInstr B { op := tsexpr.Op.Store, text := target } [] s4 =
              .error "Stack underflow (bad program)" from rfl] at hx
          dsimp only at hx
          injection hx with h5
          injection h5 with ha hb
          exact hb.symm.trans hs4
        · rw [show tsexpr.execInstr B { op := tsexpr.Op.Store, text := target } (v :: st5) s4 =
              .ok (st5, B.store_var s4 target v) from rfl] at hx
          dsimp only at hx
          rw [tsexpr.execGo] at hx
          exact absurd hx (by simp)
  · intro input env e env2 h
    rw [ts.expr.execute_assignment] at h
    rcases hc : ts.expr.compileText input with e2 | c <;> rw [hc] at h <;> dsimp only at h
    · injection h with h1
      injection h1 with ha hb
      exact hb.symm
    · rcases he : ts.expr.eval_rpn c.rpn env with e2 | v <;> rw [he] at h <;> dsimp only at h
      · injection h with h1
        injection h1 with ha hb
        exact hb.symm
      · exact absurd h (by simp)

/-- Witness for C8: `z = q + 1` compiles (tsexpr) but fails at runtime on the
empty toy backend (unknown variable `q`), with the backend state unchanged;
and `z = (a` fails to parse in ts::expr, leaving the environment unchanged. -/
theorem c8_failure_atomicity_witness :
    tsexpr.compileText ("z = q + 1".toList) = Except.ok c8prog ∧
    tsexpr.Program.execute c8prog toy.Backend [] =
      Except.error ("Unknown variable: q", ([] : toy.Vars)) ∧
    (([] : toy.Vars) = ([] : toy.Vars)) ∧
    ts.expr.execute_assignment ("z = (a".toList) envAB =
      Except.error ("Mismatched '('", envAB) ∧
    envAB = envAB := by
  refine ⟨by decide, by decide, ?_, by decide, ?_⟩
  · exact c8_failure_atomicity.1 ("z = q + 1".toList) c8prog toy.Backend [] "Unknown variable: q"
      [] (by decide) (by decide)
  · exact c8_failure_atomicity.2 ("z = (a".toList) envAB "Mismatched '('" envAB (by decide)

/-! ### C1: lockstep of the two parsers on function-free input -/

/-- No function-call opener in the token stream: no `Ident` immediately
followed by `LParen` (the only construct on which the two parsers' frame
machinery engages). -/
def funcOpenFree : List Token → Bool
  | t :: u :: rest =>
    (if t.kind = TokKind.Ident ∧ u.kind = TokKind.LParen then false else true) &&
      funcOpenFree (u :: rest)
  | _ => true

/-- The token stream has an expression after the `=` slot: a third token
exists and is not the end-of-input marker (`z =` is the divergence input). -/
def hasExpr : List Token → Bool
  | _ :: _ :: f :: _ => if f.kind = TokKind.TEnd then false else true
  | [_, _] => false
  | _ => true

/-- Token kinds that can appear in a function-free RPN (all of which the
tsexpr lowering accepts). -/
def goodKind : TokKind → Bool
  | .Ident | .Number | .Plus | .Minus | .Star | .Slash | .Neg => true
  | _ => false

/-- A ts::expr parser state seen as a tsexpr parser state (empty frame
stack). -/
def txOfSt (s : ts.expr.St) : tsexpr.St :=
  { output := s.output, opstack := s.opstack, fnstack := [],
    expect_operand := s.expect_operand }

/-- Invariant maintained by the ts::expr token loop on function-free input:
no active function frame, only parens/operators on the operator stack, and
only lowerable kinds in the output queue. -/
def StOK (s : ts.expr.St) : Prop :=
  s.func_stack = [] ∧
    (∀ x ∈ s.opstack, x.kind = TokKind.LParen ∨ ts.expr.is_operator x.kind = true) ∧
    (∀ x ∈ s.output, goodKind x.kind = true)

/-- The two parsers' operator tests agree pointwise. -/
theorem is_operator_funeq : ts.expr.is_operator = tsexpr.is_op := by
  funext k
  cases k <;> rfl

/-- The two parsers' pop decisions agree pointwise (the precedence tables are
order-isomorphic). -/
theorem pop_it_funeq : ts.expr.pop_it = tsexpr.pop_it := by
  funext c t
  cases c <;> cases t <;> rfl

/-- Operator kinds are lowerable. -/
theorem goodKind_of_operator :
    ∀ k : TokKind, ts.expr.is_operator k = true → goodKind k = true := by
  intro k
  cases k <;> simp [ts.expr.is_operator, goodKind]

/-- One-token lockstep of the two parsers on function-free input: from a
related pair of states (empty frame stacks), the ts::expr step and the tsexpr
step either both fail or both succeed with related states, never consuming the
lookahead. -/
theorem step_lockstep (t : Token) (peek : Option Token) (s : ts.expr.St)
    (hok : StOK s)
    (hpeek : t.kind = TokKind.Ident → (peek.map Token.kind) ≠ some TokKind.LParen) :
    (∀ e, ts.expr.step t peek s = .error e →
        ∃ e2, tsexpr.step t peek (txOfSt s) = .error e2) ∧
    (∀ s2 c, ts.expr.step t peek s = .ok (s2, c) →
        c = false ∧ StOK s2 ∧ tsexpr.step t peek (txOfSt s) = .ok (txOfSt s2, false)) := by
  obtain ⟨out, ops, fs, ex⟩ := s
  obtain ⟨hfs, hops, hout⟩ := hok
  dsimp only at hfs hops hout
  subst hfs
  cases ht : t.kind
  case Ident =>
    have hpk := hpeek ht
    constructor
    · intro e he
      exact absurd he (by simp [ts.expr.step, ht, hpk])
    · intro s2 c hstep
      simp [ts.expr.step, ht, hpk] at hstep
      obtain ⟨h1, h2⟩ := hstep
      subst h1
      subst h2
      refine ⟨rfl, ⟨rfl, hops, ?_⟩, ?_⟩
      · intro x hx
        rcases List.mem_append.mp hx with hx2 | hx2
        · exact hout x hx2
        · simp only [List.mem_singleton] at hx2
          subst hx2
          simp [goodKind, ht]
      · simp [tsexpr.step, txOfSt, ht, hpk]
  case Number =>
    constructor
    · intro e he
      exact absurd he (by simp [ts.expr.step, ht])
    · intro s2 c hstep
      simp [ts.expr.step, ht] at hstep
      obtain ⟨h1, h2⟩ := hstep
      subst h1
      subst h2
      refine ⟨rfl, ⟨rfl, hops, ?_⟩, ?_⟩
      · intro x hx
        rcases List.mem_append.mp hx with hx2 | hx2
        · exact hout x hx2
        · simp only [List.mem_singleton] at hx2
          subst hx2
          simp [goodKind, ht]
      · simp [tsexpr.step, txOfSt, ht]
  case Comma =>
    constructor
    · intro e he
      rcases hp : popToLParen ops out with _ | ⟨ops1, out1⟩
      · refine ⟨"Comma not within function call", ?_⟩
        simp [tsexpr.step, txOfSt, ht, hp]
      · refine ⟨"Internal error: comma with no function frame", ?_⟩
        simp [tsexpr.step, txOfSt, ht, hp]
    · intro s2 c hstep
      exact absurd hstep (by simp [ts.expr.step, ts.expr.is_operator, ht])
  case LParen =>
    constructor
    · intro e he
      exact absurd he (by simp [ts.expr.step, ht])
    · intro s2 c hstep
      simp [ts.expr.step, ht] at hstep
      obtain ⟨h1, h2⟩ := hstep
      subst h1
      subst h2
      refine ⟨rfl, ⟨rfl, ?_, hout⟩, ?_⟩
      · intro x hx
        rcases List.mem_cons.mp hx with rfl | hx2
        · exact Or.inl ht
        · exact hops x hx2
      · simp [tsexpr.step, txOfSt, ht]
  case RParen =>
    rcases hp : popToLParen ops out with _ | ⟨ops1, out1⟩
    · constructor
      · intro e he
        refine ⟨"Mismatched ')'", ?_⟩
        simp [tsexpr.step, txOfSt, ht, hp]
      · intro s2 c hstep
        exact absurd hstep (by simp [ts.expr.step, ht, hp])
    · obtain ⟨pre, hopeq, houteq, hprelp, lp, rest, hops1, hlpk⟩ :=
        popToLParen_some ops out ops1 out1 hp
      subst hops1
      have hgout1 : ∀ x ∈ out1, goodKind x.kind = true := by
        intro x hx
        rw [houteq] at hx
        rcases List.mem_append.mp hx with hx2 | hx2
        · exact hout x hx2
        · have hmem : x ∈ ops := hopeq ▸ List.mem_append_left _ hx2
          rcases hops x hmem with hl | hoper
          · exact absurd hl (hprelp x hx2)
          · exact goodKind_of_operator x.kind hoper
      have hrest : ∀ x ∈ rest, x.kind = TokKind.LParen ∨ ts.expr.is_operator x.kind = true := by
        intro x hx
        exact hops x (hopeq ▸ List.mem_append_right pre (List.mem_cons_of_mem lp hx))
      constructor
      · intro e he
        exact absurd he (by simp [ts.expr.step, ht, hp])
      · intro s2 c hstep
        simp [ts.expr.step, ht, hp] at hstep
        obtain ⟨h1, h2⟩ := hstep
        subst h1
        subst h2
        refine ⟨rfl, ⟨rfl, hrest, hgout1⟩, ?_⟩
        rcases rest with _ | ⟨f, ops2⟩
        · simp [tsexpr.step, txOfSt, ht, hp]
        · have hf : f.kind ≠ TokKind.Func := by
            rcases hrest f (List.mem_cons_self f ops2) with hl | hoper
            · rw [hl]
              decide
            · exact (is_operator_kind_facts f.kind hoper).1
          simp [tsexpr.step, txOfSt, ht, hp, hf]

  case Plus =>
    obtain ⟨pre, rest, heq, hres, hall⟩ :=
      popOps_some ts.expr.is_operator ts.expr.pop_it TokKind.Plus ops out
    have hres2 : popOps tsexpr.is_op tsexpr.pop_it TokKind.Plus ops out = (rest, out ++ pre) := by
      rw [← is_operator_funeq, ← pop_it_funeq]
      exact hres
    constructor
    · intro e he
      exact absurd he (by simp [ts.expr.step, ts.expr.is_operator, ht, hres])
    · intro s2 c hstep
      simp [ts.expr.step, ts.expr.is_operator, ht, hres] at hstep
      obtain ⟨h1, h2⟩ := hstep
      subst h1
      subst h2
      refine ⟨rfl, ⟨rfl, ?_, ?_⟩, ?_⟩
      · intro x hx
        rcases List.mem_cons.mp hx with rfl | hx2
        · exact Or.inr (by simp [ts.expr.is_operator])
        · exact hops x (heq ▸ List.mem_append_right pre hx2)
      · intro x hx
        rcases List.mem_append.mp hx with hx2 | hx2
        · exact hout x hx2
        · exact goodKind_of_operator x.kind (hall x hx2)
      · simp [tsexpr.step, tsexpr.is_op, txOfSt, ht, hres2]

  case Star =>
    obtain ⟨pre, rest, heq, hres, hall⟩ :=
      popOps_some ts.expr.is_operator ts.expr.pop_it TokKind.Star ops out
    have hres2 : popOps tsexpr.is_op tsexpr.pop_it TokKind.Star ops out = (rest, out ++ pre) := by
      rw [← is_operator_funeq, ← pop_it_funeq]
      exact hres
    constructor
    · intro e he
      exact absurd he (by simp [ts.expr.step, ts.expr.is_operator, ht, hres])
    · intro s2 c hstep
      simp [ts.expr.step, ts.expr.is_operator, ht, hres] at hstep
      obtain ⟨h1, h2⟩ := hstep
      subst h1
      subst h2
      refine ⟨rfl, ⟨rfl, ?_, ?_⟩, ?_⟩
      · intro x hx
        rcases List.mem_cons.mp hx with rfl | hx2
        · exact Or.inr (by simp [ts.expr.is_operator])
        · exact hops x (heq ▸ List.mem_append_right pre hx2)
      · intro x hx
        rcases List.mem_append.mp hx with hx2 | hx2
        · exact hout x hx2
        · exact goodKind_of_operator x.kind (hall x hx2)
      · simp [tsexpr.step, tsexpr.is_op, txOfSt, ht, hres2]

  case Slash =>
    obtain ⟨pre, rest, heq, hres, hall⟩ :=
      popOps_some ts.expr.is_operator ts.expr.pop_it TokKind.Slash ops out
    have hres2 : popOps tsexpr.is_op tsexpr.pop_it TokKind.Slash ops out = (rest, out ++ pre) := by
      rw [← is_operator_funeq, ← pop_it_funeq]
      exact hres
    constructor
    · intro e he
      exact absurd he (by simp [ts.expr.step, ts.expr.is_operator, ht, hres])
    · intro s2 c hstep
      simp [ts.expr.step, ts.expr.is_operator, ht, hres] at hstep
      obtain ⟨h1, h2⟩ := hstep
      subst h1
      subst h2
      refine ⟨rfl, ⟨rfl, ?_, ?_⟩, ?_⟩
      · intro x hx
        rcases List.mem_cons.mp hx with rfl | hx2
        · exact Or.inr (by simp [ts.expr.is_operator])
        · exact hops x (heq ▸ List.mem_append_right pre hx2)
      · intro x hx
        rcases List.mem_append.mp hx with hx2 | hx2
        · exact hout x hx2
        · exact goodKind_of_operator x.kind (hall x hx2)
      · simp [tsexpr.step, tsexpr.is_op, txOfSt, ht, hres2]

  case Neg =>
    obtain ⟨pre, rest, heq, hres, hall⟩ :=
      popOps_some ts.expr.is_operator ts.expr.pop_it TokKind.Neg ops out
    have hres2 : popOps tsexpr.is_op tsexpr.pop_it TokKind.Neg ops out = (rest, out ++ pre) := by
      rw [← is_operator_funeq, ← pop_it_funeq]
      exact hres
    constructor
    · intro e he
      exact absurd he (by simp [ts.expr.step, ts.expr.is_operator, ht, hres])
    · intro s2 c hstep
      simp [ts.expr.step, ts.expr.is_operator, ht, hres] at hstep
      obtain ⟨h1, h2⟩ := hstep
      subst h1
      subst h2
      refine ⟨rfl, ⟨rfl, ?_, ?_⟩, ?_⟩
      · intro x hx
        rcases List.mem_cons.mp hx with rfl | hx2
        · exact Or.inr (by simp [ts.expr.is_operator])
        · exact hops x (heq ▸ List.mem_append_right pre hx2)
      · intro x hx
        rcases List.mem_append.mp hx with hx2 | hx2
        · exact hout x hx2
        · exact goodKind_of_operator x.kind (hall x hx2)
      · simp [tsexpr.step, tsexpr.is_op, txOfSt, ht, hres2]

  case Minus =>
    cases ex
    case false =>
      obtain ⟨pre, rest, heq, hres, hall⟩ :=
        popOps_some ts.expr.is_operator ts.expr.pop_it TokKind.Minus ops out
      have hres2 : popOps tsexpr.is_op tsexpr.pop_it TokKind.Minus ops out = (rest, out ++ pre) := by
        rw [← is_operator_funeq, ← pop_it_funeq]
        exact hres
      constructor
      · intro e he
        exact absurd he (by simp [ts.expr.step, ts.expr.is_operator, ht, hres])
      · intro s2 c hstep
        simp [ts.expr.step, ts.expr.is_operator, ht, hres] at hstep
        obtain ⟨h1, h2⟩ := hstep
        subst h1
        subst h2
        refine ⟨rfl, ⟨rfl, ?_, ?_⟩, ?_⟩
        · intro x hx
          rcases List.mem_cons.mp hx with rfl | hx2
          · exact Or.inr (by simp [ts.expr.is_operator])
          · exact hops x (heq ▸ List.mem_append_right pre hx2)
        · intro x hx
          rcases List.mem_append.mp hx with hx2 | hx2
          · exact hout x hx2
          · exact goodKind_of_operator x.kind (hall x hx2)
        · simp [tsexpr.step, tsexpr.is_op, txOfSt, ht, hres2]
    case true =>
      obtain ⟨pre, rest, heq, hres, hall⟩ :=
        popOps_some ts.expr.is_operator ts.expr.pop_it TokKind.Neg ops out
      have hres2 : popOps tsexpr.is_op tsexpr.pop_it TokKind.Neg ops out = (rest, out ++ pre) := by
        rw [← is_operator_funeq, ← pop_it_funeq]
        exact hres
      constructor
      · intro e he
        exact absurd he (by simp [ts.expr.step, ts.expr.is_operator, ht, hres])
      · intro s2 c hstep
        simp [ts.expr.step, ts.expr.is_operator, ht, hres] at hstep
        obtain ⟨h1, h2⟩ := hstep
        subst h1
        subst h2
        refine ⟨rfl, ⟨rfl, ?_, ?_⟩, ?_⟩
        · intro x hx
          rcases List.mem_cons.mp hx with rfl | hx2
          · exact Or.inr (by simp [ts.expr.is_operator])
          · exact hops x (heq ▸ List.mem_append_right pre hx2)
        · intro x hx
          rcases List.mem_append.mp hx with hx2 | hx2
          · exact hout x hx2
          · exact goodKind_of_operator x.kind (hall x hx2)
        · simp [tsexpr.step, tsexpr.is_op, txOfSt, ht, hres2]

  case Assign =>
    constructor
    · intro e he
      refine ⟨"Unexpected token in expression", ?_⟩
      simp [tsexpr.step, tsexpr.is_op, txOfSt, ht]
    · intro s2 c hstep
      exact absurd hstep (by simp [ts.expr.step, ts.expr.is_operator, ht])

  case Func =>
    constructor
    · intro e he
      refine ⟨"Unexpected token in expression", ?_⟩
      simp [tsexpr.step, tsexpr.is_op, txOfSt, ht]
    · intro s2 c hstep
      exact absurd hstep (by simp [ts.expr.step, ts.expr.is_operator, ht])

  case TEnd =>
    constructor
    · intro e he
      refine ⟨"Unexpected token in expression", ?_⟩
      simp [tsexpr.step, tsexpr.is_op, txOfSt, ht]
    · intro s2 c hstep
      exact absurd hstep (by simp [ts.expr.step, ts.expr.is_operator, ht])

/-- Whole-loop lockstep of the two parsers on function-free input. -/
theorem loop_lockstep :
    ∀ (toks : List Token) (s : ts.expr.St),
      StOK s → funcOpenFree toks = true →
      (∀ e, ts.expr.loop toks s = .error e → ∃ e2, tsexpr.loop toks (txOfSt s) = .error e2) ∧
      (∀ s2, ts.expr.loop toks s = .ok s2 →
        StOK s2 ∧ tsexpr.loop toks (txOfSt s) = .ok (txOfSt s2)) := by
  intro toks
  induction toks with
  | nil =>
    intro s hok _
    constructor
    · intro e he
      exact absurd he (by simp [ts.expr.loop])
    · intro s2 h
      rw [ts.expr.loop] at h
      injection h with h1
      subst h1
      exact ⟨hok, by rw [tsexpr.loop]⟩
  | cons t rest ih =>
    intro s hok hff
    have hpeek : t.kind = TokKind.Ident → (rest.head?.map Token.kind) ≠ some TokKind.LParen := by
      intro hident hcon
      rcases rest with _ | ⟨u, rest2⟩
      · simp at hcon
      · simp only [List.head?_cons, Option.map_some] at hcon
        injection hcon with hu
        rw [funcOpenFree] at hff
        simp [hident, hu] at hff
    have hffr : funcOpenFree rest = true := by
      rcases rest with _ | ⟨u, rest2⟩
      · rfl
      · rw [funcOpenFree] at hff
        exact (Bool.and_eq_true_iff.mp hff).2
    by_cases hend : t.kind = TokKind.TEnd
    · constructor
      · intro e he
        rw [ts.expr.loop, if_pos hend] at he
        exact absurd he (by simp)
      · intro s2 h
        rw [ts.expr.loop, if_pos hend] at h
        injection h with h1
        subst h1
        exact ⟨hok, by rw [tsexpr.loop, if_pos hend]⟩
    · obtain ⟨herr, hsucc⟩ := step_lockstep t rest.head? s hok hpeek
      constructor
      · intro e he
        rw [ts.expr.loop, if_neg hend] at he
        rcases hstep : ts.expr.step t rest.head? s with e3 | ⟨s3, c⟩ <;>
          rw [hstep] at he <;> dsimp only at he
        · obtain ⟨e2, htx⟩ := herr e3 hstep
          refine ⟨e2, ?_⟩
          rw [tsexpr.loop, if_neg hend, htx]
        · obtain ⟨hc, hok3, htx⟩ := hsucc s3 c hstep
          subst hc
          simp only [Bool.false_eq_true, if_false] at he
          obtain ⟨e2, hrec⟩ := (ih s3 hok3 hffr).1 e he
          refine ⟨e2, ?_⟩
          rw [tsexpr.loop, if_neg hend, htx]
          simpa using hrec
      · intro s2 h
        rw [ts.expr.loop, if_neg hend] at h
        rcases hstep : ts.expr.step t rest.head? s with e3 | ⟨s3, c⟩ <;>
          rw [hstep] at h <;> dsimp only at h
        · exact absurd h (by simp)
        · obtain ⟨hc, hok3, htx⟩ := hsucc s3 c hstep
          subst hc
          simp only [Bool.false_eq_true, if_false] at h
          obtain ⟨hok2, hrec⟩ := (ih s3 hok3 hffr).2 s2 h
          refine ⟨hok2, ?_⟩
          rw [tsexpr.loop, if_neg hend, htx]
          simpa using hrec

/-- The shared end-of-input drain keeps the output lowerable when fed a
parens/operators stack and a lowerable queue. -/
theorem drainOps_good :
    ∀ (ops out res : List Token),
      (∀ x ∈ ops, x.kind = TokKind.LParen ∨ ts.expr.is_operator x.kind = true) →
      (∀ x ∈ out, goodKind x.kind = true) →
      drainOps ops out = .ok res → ∀ x ∈ res, goodKind x.kind = true := by
  intro ops
  induction ops with
  | nil =>
    intro out res hops hout h
    rw [drainOps] at h
    injection h with h1
    subst h1
    exact hout
  | cons t r ih =>
    intro out res hops hout h
    rw [drainOps] at h
    by_cases hlp : t.kind = TokKind.LParen
    · rw [if_pos hlp] at h
      exact absurd h (by simp)
    · rw [if_neg hlp] at h
      have hoper : ts.expr.is_operator t.kind = true := by
        rcases hops t (List.mem_cons_self t r) with hl | ho
        · exact absurd hl hlp
        · exact ho
      have hF : t.kind ≠ TokKind.Func := (is_operator_kind_facts t.kind hoper).1
      rw [if_neg hF] at h
      refine ih (out ++ [t]) res (fun x hx => hops x (List.mem_cons_of_mem t hx)) ?_ h
      intro x hx
      rcases List.mem_append.mp hx with hx2 | hx2
      · exact hout x hx2
      · simp only [List.mem_singleton] at hx2
        subst hx2
        exact goodKind_of_operator x.kind hoper

/-- Lowering never fails on a lowerable token list. -/
theorem lowerToks_good :
    ∀ (rpn : List Token), (∀ x ∈ rpn, goodKind x.kind = true) →
      ∃ code, tsexpr.lowerToks rpn = .ok code := by
  intro rpn
  induction rpn with
  | nil => exact fun _ => ⟨[], rfl⟩
  | cons t rest ih =>
    intro hgood
    obtain ⟨code2, hc2⟩ := ih (fun x hx => hgood x (List.mem_cons_of_mem t hx))
    have hgt := hgood t (List.mem_cons_self t rest)
    rw [tsexpr.lowerToks]
    cases ht : t.kind <;> dsimp only <;>
      first
        | (rw [hc2]; exact ⟨_, rfl⟩)
        | (exfalso; simp [goodKind, ht] at hgt)

/-- Compile-level lockstep on function-free input with a non-empty
expression: ts::expr parse errors force tsexpr parse errors, and a ts::expr
compile success forces a tsexpr compile success whose program is the lowering
of the very same RPN followed by the trailing store of the same target. -/
theorem compile_lockstep :
    ∀ (toks : List Token), funcOpenFree toks = true → hasExpr toks = true →
      (∀ e, ts.expr.compile toks = .error e → ∃ e2, tsexpr.compile toks = .error e2) ∧
      (∀ c, ts.expr.compile toks = .ok c →
        (∀ x ∈ c.rpn, goodKind x.kind = true) ∧
        ∃ code, tsexpr.lowerToks c.rpn = .ok code ∧
          tsexpr.compile toks = .ok { code := code ++ [{ op := tsexpr.Op.Store, text := c.target }] }) := by
  intro toks hff hhe
  rcases toks with _ | ⟨lhs, rest⟩
  · constructor
    · intro e he
      exact ⟨"Expected assignment target identifier at start", rfl⟩
    · intro c hc
      exact absurd hc (by simp [ts.expr.compile])
  · by_cases h1 : lhs.kind = TokKind.Ident
    · rcases rest with _ | ⟨eq, rest2⟩
      · constructor
        · intro e he
          refine ⟨"Expected '=' after assignment target", ?_⟩
          simp [tsexpr.compile, h1]
        · intro c hc
          exact absurd hc (by simp [ts.expr.compile, h1])
      · by_cases h2 : eq.kind = TokKind.Assign
        · rcases rest2 with _ | ⟨f, rest3⟩
          · exact absurd hhe (by simp [hasExpr])
          · have hfk : f.kind ≠ TokKind.TEnd := by
              rw [hasExpr] at hhe
              by_cases hk : f.kind = TokKind.TEnd
              · rw [if_pos hk] at hhe
                exact absurd hhe (by simp)
              · exact hk
            have hffr : funcOpenFree (f :: rest3) = true := by
              rw [funcOpenFree] at hff
              have h3 := (Bool.and_eq_true_iff.mp hff).2
              rw [funcOpenFree] at h3
              exact (Bool.and_eq_true_iff.mp h3).2
            have hok0 : StOK {} := ⟨rfl, by intro x hx; simp at hx, by intro x hx; simp at hx⟩
            obtain ⟨herr, hsucc⟩ := loop_lockstep (f :: rest3) {} hok0 hffr
            have htx0 : txOfSt {} = ({} : tsexpr.St) := rfl
            constructor
            · intro e he
              rw [ts.expr.compile.eq_def] at he
              dsimp only at he
              rw [if_neg (by simp [h1]), if_neg (by simp [h2])] at he
              rcases hloop : ts.expr.loop (f :: rest3) {} with e3 | s <;> rw [hloop] at he <;>
                dsimp only at he
              · obtain ⟨e2, htx⟩ := herr e3 hloop
                refine ⟨e2, ?_⟩
                rw [tsexpr.compile.eq_def]
                dsimp only
                rw [if_neg (by simp [h1]), if_neg (by simp [h2]), if_neg hfk]
                rw [tsexpr.to_rpn, htx0] at *
                rw [htx]
              · obtain ⟨hoks, htx⟩ := hsucc s hloop
                rcases hd : drainOps s.opstack s.output with e3 | outr <;> rw [hd] at he <;>
                  dsimp only at he
                · refine ⟨e3, ?_⟩
                  rw [tsexpr.compile.eq_def]
                  dsimp only
                  rw [if_neg (by simp [h1]), if_neg (by simp [h2]), if_neg hfk]
                  rw [htx0] at htx
                  rw [tsexpr.to_rpn, htx]
                  dsimp only [txOfSt]
                  rw [hd]
                · exact absurd he (by simp)
            · intro c hc
              rw [ts.expr.compile.eq_def] at hc
              dsimp only at hc
              rw [if_neg (by simp [h1]), if_neg (by simp [h2])] at hc
              rcases hloop : ts.expr.loop (f :: rest3) {} with e3 | s <;> rw [hloop] at hc <;>
                dsimp only at hc
              · exact absurd hc (by simp)
              · obtain ⟨hoks, htx⟩ := hsucc s hloop
                rcases hd : drainOps s.opstack s.output with e3 | outr <;> rw [hd] at hc <;>
                  dsimp only at hc
                · exact absurd hc (by simp)
                · injection hc with hc1
                  subst hc1
                  have hgood : ∀ x ∈ outr, goodKind x.kind = true :=
                    drainOps_good s.opstack s.output outr hoks.2.1 hoks.2.2 hd
                  refine ⟨hgood, ?_⟩
                  obtain ⟨code, hcode⟩ := lowerToks_good outr hgood
                  refine ⟨code, hcode, ?_⟩
                  rw [tsexpr.compile.eq_def]
                  dsimp only
                  rw [if_neg (by simp [h1]), if_neg (by simp [h2]), if_neg hfk]
                  rw [htx0] at htx
                  rw [tsexpr.to_rpn, htx]
                  dsimp only [txOfSt]
                  simp [hd, hcode]
        · constructor
          · intro e he
            refine ⟨"Expected '=' after assignment target", ?_⟩
            rw [tsexpr.compile.eq_def]
            dsimp only
            rw [if_neg (by simp [h1]), if_pos (by simp [h2])]
          · intro c hc
            rw [ts.expr.compile.eq_def] at hc
            dsimp only at hc
            rw [if_neg (by simp [h1]), if_pos (by simp [h2])] at hc
            exact absurd hc (by simp)
    · constructor
      · intro e he
        refine ⟨"Expected assignment target identifier at start", ?_⟩
        rw [tsexpr.compile.eq_def]
        dsimp only
        rw [if_pos (by simp [h1])]
      · intro c hc
        rw [ts.expr.compile.eq_def] at hc
        dsimp only at hc
        rw [if_pos (by simp [h1])] at hc
        exact absurd hc (by simp)

/-! ### C1: the ts::expr evaluator refines toy-backend execution -/

/-- Environment lookups transport along `toyOfEnv`. -/
theorem lookup_toyOfEnv :
    ∀ (env : ts.expr.Env) (name : String) (ts0 : ts.expr.TimeSeries),
      env.lookup name = some ts0 →
      (toyOfEnv env).lookup name = some (toy.Value.series ⟨ts0.v⟩) := by
  intro env name ts0 h
  induction env with
  | nil => simp at h
  | cons p r ih =>
    rcases p with ⟨k, w⟩
    by_cases hk : (name == k) = true
    · rw [List.lookup, hk] at h
      injection h with h1
      subst h1
      simp [toyOfEnv, List.lookup, hk]
    · rw [List.lookup] at h
      rw [Bool.not_eq_true] at hk
      rw [hk] at h
      have := ih h
      simpa [toyOfEnv, List.lookup, hk] using this

/-- `apply_binary` on addition refines the toy backend's `Add`. -/
theorem apply_binary_toy_add :
    ∀ (a b v : ts.expr.Value), ts.expr.apply_binary TokKind.Plus a b = .ok v →
      toy.Backend.binary tsexpr.Op.Add (toyOfVal a) (toyOfVal b) = .ok (toyOfVal v) := by
  intro a b v h
  cases a with
  | scalar x =>
    cases b with
    | scalar y =>
      simp [ts.expr.apply_binary] at h
      subst h
      rfl
    | series ys =>
      simp [ts.expr.apply_binary, ts.expr.binop_s_ts] at h
      subst h
      rfl
  | series xs =>
    cases b with
    | scalar y =>
      simp [ts.expr.apply_binary, ts.expr.binop_ts_s] at h
      subst h
      rfl
    | series ys =>
      by_cases hlen : xs.v.length = ys.v.length
      · simp [ts.expr.apply_binary, ts.expr.binop_ts_ts, ts.expr.require_same_size, hlen] at h
        subst h
        simp [toy.Backend, toy.pick, toy.elementwise, toyOfVal, hlen]
      · simp [ts.expr.apply_binary, ts.expr.binop_ts_ts, ts.expr.require_same_size, hlen] at h

/-- `apply_binary` on subtraction refines the toy backend's `Sub`. -/
theorem apply_binary_toy_sub :
    ∀ (a b v : ts.expr.Value), ts.expr.apply_binary TokKind.Minus a b = .ok v →
      toy.Backend.binary tsexpr.Op.Sub (toyOfVal a) (toyOfVal b) = .ok (toyOfVal v) := by
  intro a b v h
  cases a with
  | scalar x =>
    cases b with
    | scalar y =>
      simp [ts.expr.apply_binary] at h
      subst h
      rfl
    | series ys =>
      simp [ts.expr.apply_binary, ts.expr.binop_s_ts] at h
      subst h
      rfl
  | series xs =>
    cases b with
    | scalar y =>
      simp [ts.expr.apply_binary, ts.expr.binop_ts_s] at h
      subst h
      rfl
    | series ys =>
      by_cases hlen : xs.v.length = ys.v.length
      · simp [ts.expr.apply_binary, ts.expr.binop_ts_ts, ts.expr.require_same_size, hlen] at h
        subst h
        simp [toy.Backend, toy.pick, toy.elementwise, toyOfVal, hlen]
      · simp [ts.expr.apply_binary, ts.expr.binop_ts_ts, ts.expr.require_same_size, hlen] at h

/-- `apply_binary` on multiplication refines the toy backend's `Mul`. -/
theorem apply_binary_toy_mul :
    ∀ (a b v : ts.expr.Value), ts.expr.apply_binary TokKind.Star a b = .ok v →
      toy.Backend.binary tsexpr.Op.Mul (toyOfVal a) (toyOfVal b) = .ok (toyOfVal v) := by
  intro a b v h
  cases a with
  | scalar x =>
    cases b with
    | scalar y =>
      simp [ts.expr.apply_binary] at h
      subst h
      rfl
    | series ys =>
      simp [ts.expr.apply_binary, ts.expr.binop_s_ts] at h
      subst h
      rfl
  | series xs =>
    cases b with
    | scalar y =>
      simp [ts.expr.apply_binary, ts.expr.binop_ts_s] at h
      subst h
      rfl
    | series ys =>
      by_cases hlen : xs.v.length = ys.v.length
      · simp [ts.expr.apply_binary, ts.expr.binop_ts_ts, ts.expr.require_same_size, hlen] at h
        subst h
        simp [toy.Backend, toy.pick, toy.elementwise, toyOfVal, hlen]
      · simp [ts.expr.apply_binary, ts.expr.binop_ts_ts, ts.expr.require_same_size, hlen] at h

/-- `apply_binary` on division refines the toy backend's `Div`. -/
theorem apply_binary_toy_div :
    ∀ (a b v : ts.expr.Value), ts.expr.apply_binary TokKind.Slash a b = .ok v →
      toy.Backend.binary tsexpr.Op.Div (toyOfVal a) (toyOfVal b) = .ok (toyOfVal v) := by
  intro a b v h
  cases a with
  | scalar x =>
    cases b with
    | scalar y =>
      simp [ts.expr.apply_binary] at h
      subst h
      rfl
    | series ys =>
      simp [ts.expr.apply_binary, ts.expr.binop_s_ts] at h
      subst h
      rfl
  | series xs =>
    cases b with
    | scalar y =>
      simp [ts.expr.apply_binary, ts.expr.binop_ts_s] at h
      subst h
      rfl
    | series ys =>
      by_cases hlen : xs.v.length = ys.v.length
      · simp [ts.expr.apply_binary, ts.expr.binop_ts_ts, ts.expr.require_same_size, hlen] at h
        subst h
        simp [toy.Backend, toy.pick, toy.elementwise, toyOfVal, hlen]
      · simp [ts.expr.apply_binary, ts.expr.binop_ts_ts, ts.expr.require_same_size, hlen] at h

/-- One-step unfolding of the evaluator loop on a cons cell. -/
theorem evalAux_cons (env : ts.expr.Env) (t : Token) (rest : List Token)
    (st : List ts.expr.Value) :
    ts.expr.evalAux env (t :: rest) st =
      (match t.kind with
       | .Number => ts.expr.evalAux env rest (.scalar t.number :: st)
       | .Ident =>
         match env.lookup t.text with
         | none => .error ("Unknown variable: " ++ t.text)
         | some ts0 => ts.expr.evalAux env rest (.series ts0 :: st)
       | .Neg =>
         match st with
         | [] => .error "Stack underflow (bad expression)"
         | v :: st2 => ts.expr.evalAux env rest (ts.expr.negate_value v :: st2)
       | .Plus | .Minus | .Star | .Slash =>
         match st with
         | b :: a :: st2 =>
           match ts.expr.apply_binary t.kind a b with
           | .error e => .error e
           | .ok v => ts.expr.evalAux env rest (v :: st2)
         | _ => .error "Stack underflow (bad expression)"
       | .Func =>
         if t.arity ≤ 0 then .error "Bad function arity"
         else if t.arity.toNat > st.length then .error "Stack underflow (function args)"
         else
           match ts.expr.apply_function t ((st.take t.arity.toNat).reverse) with
           | .error e => .error e
           | .ok v => ts.expr.evalAux env rest (v :: st.drop t.arity.toNat)
       | _ => .error "Unexpected token during evaluation") := by
  obtain ⟨k, txt, num, ar⟩ := t
  cases k <;> rfl

/-- The evaluator loop of `ts::expr::eval_rpn` refines the generic executor on
the lowered code against the toy backend: success carries over, stack for
stack, without touching the backend state. -/
theorem evalAux_execGo_refines :
    ∀ (rpn : List Token) (env : ts.expr.Env) (st st2 : List ts.expr.Value)
      (code : List tsexpr.Instr),
      tsexpr.lowerToks rpn = .ok code →
      ts.expr.evalAux env rpn st = .ok st2 →
      (∀ x ∈ rpn, goodKind x.kind = true) →
      tsexpr.execGo toy.Backend code (st.map toyOfVal) (toyOfEnv env) =
        .ok (st2.map toyOfVal, toyOfEnv env) := by
  intro rpn
  induction rpn with
  | nil =>
    intro env st st2 code hl he _
    rw [tsexpr.lowerToks] at hl
    injection hl with h1
    subst h1
    rw [ts.expr.evalAux] at he
    injection he with h2
    subst h2
    rw [tsexpr.execGo]
  | cons t rest ih =>
    intro env st st2 code hl he hgood
    have hgt := hgood t (List.mem_cons_self t rest)
    have hgr : ∀ x ∈ rest, goodKind x.kind = true :=
      fun x hx => hgood x (List.mem_cons_of_mem t hx)
    rw [tsexpr.lowerToks] at hl
    rw [evalAux_cons] at he
    cases ht : t.kind <;> rw [ht] at hl he <;> dsimp only at hl he
    case Number =>
      rcases hlr : tsexpr.lowerToks rest with e2 | code2 <;> rw [hlr] at hl
      · exact absurd hl (by simp)
      · injection hl with h1
        subst h1
        rw [tsexpr.execGo]
        rw [show tsexpr.execInstr toy.Backend
            { op := tsexpr.Op.PushNum, text := "", number := t.number, argc := 0 }
            (st.map toyOfVal) (toyOfEnv env) =
            .ok (toy.Value.scalar t.number :: st.map toyOfVal, toyOfEnv env) from rfl]
        exact ih env (.scalar t.number :: st) st2 code2 hlr he hgr
    case Ident =>
      rcases hlook : env.lookup t.text with _ | ts0 <;> rw [hlook] at he
      · exact absurd he (by simp)
      · rcases hlr : tsexpr.lowerToks rest with e2 | code2 <;> rw [hlr] at hl
        · exact absurd hl (by simp)
        · injection hl with h1
          subst h1
          rw [tsexpr.execGo]
          have hload : tsexpr.execInstr toy.Backend
              { op := tsexpr.Op.PushVar, text := t.text, number := 0, argc := 0 }
              (st.map toyOfVal) (toyOfEnv env) =
              .ok (toy.Value.series ⟨ts0.v⟩ :: st.map toyOfVal, toyOfEnv env) := by
            rw [tsexpr.execInstr.eq_def]
            dsimp only
            rw [show toy.Backend.load_var (toyOfEnv env) t.text =
                .ok (toy.Value.series ⟨ts0.v⟩) from by
              simp [toy.Backend, lookup_toyOfEnv env t.text ts0 hlook]]
          rw [hload]
          exact ih env (.series ts0 :: st) st2 code2 hlr he hgr
    case Neg =>
      rcases hlr : tsexpr.lowerToks rest with e2 | code2 <;> rw [hlr] at hl
      · exact absurd hl (by simp)
      · injection hl with h1
        subst h1
        rcases st with _ | ⟨v, st3⟩ <;> dsimp only at he
        · exact absurd he (by simp)
        · rw [tsexpr.execGo]
          rw [show tsexpr.execInstr toy.Backend { op := tsexpr.Op.Neg, text := "", number := 0, argc := 0 }
              ((v :: st3).map toyOfVal) (toyOfEnv env) =
              .ok (toyOfVal (ts.expr.negate_value v) :: st3.map toyOfVal, toyOfEnv env) from by
            rw [tsexpr.execInstr.eq_def]
            dsimp only [List.map_cons]
            rw [show toy.Backend.neg (toyOfVal v) = .ok (toyOfVal (ts.expr.negate_value v)) from by
              cases v <;> rfl]]
          exact ih env (ts.expr.negate_value v :: st3) st2 code2 hlr he hgr
    case Plus =>
      rcases hlr : tsexpr.lowerToks rest with e2 | code2 <;> rw [hlr] at hl
      · exact absurd hl (by simp)
      · injection hl with h1
        subst h1
        rcases st with _ | ⟨b, st3⟩ <;> try dsimp only at he
        · exact absurd he (by simp)
        · rcases st3 with _ | ⟨a, st4⟩ <;> try dsimp only at he
          · exact absurd he (by simp)
          · rcases hab : ts.expr.apply_binary TokKind.Plus a b with e3 | v <;> rw [hab] at he <;>
              try dsimp only at he
            · exact absurd he (by simp)
            · rw [tsexpr.execGo]
              rw [show tsexpr.execInstr toy.Backend { op := tsexpr.Op.Add, text := "", number := 0, argc := 0 }
                  ((b :: a :: st4).map toyOfVal) (toyOfEnv env) =
                  .ok (toyOfVal v :: st4.map toyOfVal, toyOfEnv env) from by
                rw [tsexpr.execInstr.eq_def]
                dsimp only [List.map_cons]
                rw [apply_binary_toy_add a b v hab]]
              exact ih env (v :: st4) st2 code2 hlr he hgr
    case Minus =>
      rcases hlr : tsexpr.lowerToks rest with e2 | code2 <;> rw [hlr] at hl
      · exact absurd hl (by simp)
      · injection hl with h1
        subst h1
        rcases st with _ | ⟨b, st3⟩ <;> try dsimp only at he
        · exact absurd he (by simp)
        · rcases st3 with _ | ⟨a, st4⟩ <;> try dsimp only at he
          · exact absurd he (by simp)
          · rcases hab : ts.expr.apply_binary TokKind.Minus a b with e3 | v <;> rw [hab] at he <;>
              try dsimp only at he
            · exact absurd he (by simp)
            · rw [tsexpr.execGo]
              rw [show tsexpr.execInstr toy.Backend { op := tsexpr.Op.Sub, text := "", number := 0, argc := 0 }
                  ((b :: a :: st4).map toyOfVal) (toyOfEnv env) =
                  .ok (toyOfVal v :: st4.map toyOfVal, toyOfEnv env) from by
                rw [tsexpr.execInstr.eq_def]
                dsimp only [List.map_cons]
                rw [apply_binary_toy_sub a b v hab]]
              exact ih env (v :: st4) st2 code2 hlr he hgr
    case Star =>
      rcases hlr : tsexpr.lowerToks rest with e2 | code2 <;> rw [hlr] at hl
      · exact absurd hl (by simp)
      · injection hl with h1
        subst h1
        rcases st with _ | ⟨b, st3⟩ <;> try dsimp only at he
        · exact absurd he (by simp)
        · rcases st3 with _ | ⟨a, st4⟩ <;> try dsimp only at he
          · exact absurd he (by simp)
          · rcases hab : ts.expr.apply_binary TokKind.Star a b with e3 | v <;> rw [hab] at he <;>
              try dsimp only at he
            · exact absurd he (by simp)
            · rw [tsexpr.execGo]
              rw [show tsexpr.execInstr toy.Backend { op := tsexpr.Op.Mul, text := "", number := 0, argc := 0 }
                  ((b :: a :: st4).map toyOfVal) (toyOfEnv env) =
                  .ok (toyOfVal v :: st4.map toyOfVal, toyOfEnv env) from by
                rw [tsexpr.execInstr.eq_def]
                dsimp only [List.map_cons]
                rw [apply_binary_toy_mul a b v hab]]
              exact ih env (v :: st4) st2 code2 hlr he hgr
    case Slash =>
      rcases hlr : tsexpr.lowerToks rest with e2 | code2 <;> rw [hlr] at hl
      · exact absurd hl (by simp)
      · injection hl with h1
        subst h1
        rcases st with _ | ⟨b, st3⟩ <;> try dsimp only at he
        · exact absurd he (by simp)
        · rcases st3 with _ | ⟨a, st4⟩ <;> try dsimp only at he
          · exact absurd he (by simp)
          · rcases hab : ts.expr.apply_binary TokKind.Slash a b with e3 | v <;> rw [hab] at he <;>
              try dsimp only at he
            · exact absurd he (by simp)
            · rw [tsexpr.execGo]
              rw [show tsexpr.execInstr toy.Backend { op := tsexpr.Op.Div, text := "", number := 0, argc := 0 }
                  ((b :: a :: st4).map toyOfVal) (toyOfEnv env) =
                  .ok (toyOfVal v :: st4.map toyOfVal, toyOfEnv env) from by
                rw [tsexpr.execInstr.eq_def]
                dsimp only [List.map_cons]
                rw [apply_binary_toy_div a b v hab]]
              exact ih env (v :: st4) st2 code2 hlr he hgr

    case Func =>
      exact absurd hgt (by simp [goodKind, ht])
    case LParen =>
      exact absurd hl (by simp)
    case RParen =>
      exact absurd hl (by simp)
    case Comma =>
      exact absurd hl (by simp)
    case Assign =>
      exact absurd hl (by simp)
    case TEnd =>
      exact absurd hl (by simp)

/-- The token stream tokenized from `z = a + b * 2`, used as the C1 witness. -/
def c1toks : List Token :=
  [{ kind := .Ident, text := "z" }, { kind := .Assign },
   { kind := .Ident, text := "a" }, { kind := .Plus },
   { kind := .Ident, text := "b" }, { kind := .Star },
   { kind := .Number, number := 2 }]

/-- C1 (amended): the two pipelines are NOT equivalent in general (see the
empty-expression counterexample), but on any input whose token stream has no
function-call opener (`Ident` directly followed by `(`) and a non-empty
expression after the `=`, the parse phases run in lockstep — ts::expr raises
a parse error iff tsexpr does — and every ts::expr pipeline success is
reproduced by the tsexpr pipeline over the repository's toy backend: the same
target name is bound to the same computed value, the only representational
difference being that ts::expr coerces a scalar result to a length-1 series
on store while the toy backend stores the scalar itself. -/
theorem c1_parse_lockstep_and_execution_refinement :
    ∀ (input : List Char) (toks : List Token) (env : ts.expr.Env),
      tokenize input = .ok toks →
      funcOpenFree toks = true →
      hasExpr toks = true →
      ((∃ e, tsPipeline input env = .error (ErrKind.parse, e)) ↔
        (∃ e2, txPipeline input (toyOfEnv env) = .error (ErrKind.parse, e2))) ∧
      (∀ env2, tsPipeline input env = .ok env2 →
        ∃ (c : ts.expr.Compiled) (v : ts.expr.Value),
          ts.expr.compileText input = .ok c ∧
          ts.expr.eval_rpn c.rpn env = .ok v ∧
          env2 = ts.expr.envInsert c.target (ts.expr.coerceStore v) env ∧
          txPipeline input (toyOfEnv env) = .ok ((c.target, toyOfVal v) :: toyOfEnv env)) := by
  intro input toks env htok hff hhe
  obtain ⟨herr, hok⟩ := compile_lockstep toks hff hhe
  have hct : ts.expr.compileText input = ts.expr.compile toks := by
    rw [ts.expr.compileText, htok]
  have htct : tsexpr.compileText input = tsexpr.compile toks := by
    rw [tsexpr.compileText, htok]
  constructor
  · constructor
    · rintro ⟨e, he⟩
      rw [tsPipeline] at he
      rcases hc : ts.expr.compileText input with e3 | c <;> rw [hc] at he <;> dsimp only at he
      · rw [hct] at hc
        obtain ⟨e2, htxc⟩ := herr e3 hc
        refine ⟨e2, ?_⟩
        rw [txPipeline, htct, htxc]
      · rcases hev : ts.expr.eval_rpn c.rpn env with e3 | v <;> rw [hev] at he <;>
          dsimp only at he
        · exact absurd he (by simp)
        · exact absurd he (by simp)
    · rintro ⟨e2, he2⟩
      rcases hc : ts.expr.compile toks with e3 | c
      · refine ⟨e3, ?_⟩
        rw [tsPipeline, hct, hc]
      · obtain ⟨hgood, code, hcode, htxc⟩ := hok c hc
        rw [txPipeline, htct, htxc] at he2
        dsimp only at he2
        rcases hex : tsexpr.Program.execute
            { code := code ++ [{ op := tsexpr.Op.Store, text := c.target }] } toy.Backend
            (toyOfEnv env) with es | vars2 <;> rw [hex] at he2 <;> dsimp only at he2
        · exact absurd he2 (by simp)
        · exact absurd he2 (by simp)
  · intro env2 h
    rw [tsPipeline] at h
    rcases hc : ts.expr.compileText input with e3 | c <;> rw [hc] at h <;> dsimp only at h
    · exact absurd h (by simp)
    · rcases hev : ts.expr.eval_rpn c.rpn env with e3 | v <;> rw [hev] at h <;> dsimp only at h
      · exact absurd h (by simp)
      · injection h with h1
        refine ⟨c, v, rfl, hev, h1.symm, ?_⟩
        rw [hct] at hc
        obtain ⟨hgood, code, hcode, htxc⟩ := hok c hc
        have hev2 : ts.expr.evalAux env c.rpn [] = .ok [v] := by
          rw [ts.expr.eval_rpn] at hev
          rcases ha : ts.expr.evalAux env c.rpn [] with e4 | stck <;> rw [ha] at hev <;>
            try dsimp only at hev
          · exact absurd hev (by simp)
          · rcases stck with _ | ⟨v1, stck2⟩
            · exact absurd hev (by simp)
            · rcases stck2 with _ | ⟨v2, stck3⟩
              · injection hev with h2
                rw [h2]
              · exact absurd hev (by simp)
        have hexec := evalAux_execGo_refines c.rpn env [] [v] code hcode hev2 hgood
        have hexec2 : tsexpr.execGo toy.Backend code [] (toyOfEnv env) =
            .ok ([toyOfVal v], toyOfEnv env) := by
          simpa using hexec
        have hX : tsexpr.Program.execute
            { code := code ++ [{ op := tsexpr.Op.Store, text := c.target }] } toy.Backend
            (toyOfEnv env) = .ok ((c.target, toyOfVal v) :: toyOfEnv env) := by
          rw [tsexpr.Program.execute]
          dsimp only
          rw [execGo_append, hexec2]
          dsimp only
          rw [tsexpr.execGo]
          rw [show tsexpr.execInstr toy.Backend
              { op := tsexpr.Op.Store, text := c.target, number := 0, argc := 0 }
              [toyOfVal v] (toyOfEnv env) =
              .ok ([], (c.target, toyOfVal v) :: toyOfEnv env) from rfl]
          dsimp only
          rw [tsexpr.execGo]
        rw [txPipeline, htct, htxc]
        dsimp only
        rw [hX]

/-- Witness for C1 on `z = a + b * 2` with `a = [1,2,3]`, `b = [10,20,30]`:
the stream is function-free with a non-empty expression, ts::expr stores
`z = [21,42,63]`, and the tsexpr pipeline on the toy backend stores the same
series under the same name. -/
theorem c1_parse_lockstep_and_execution_refinement_witness :
    tokenize ("z = a + b * 2".toList) = .ok c1toks ∧
    funcOpenFree c1toks = true ∧
    hasExpr c1toks = true ∧
    (∃ (c : ts.expr.Compiled) (v : ts.expr.Value),
      ts.expr.compileText ("z = a + b * 2".toList) = .ok c ∧
      ts.expr.eval_rpn c.rpn envAB = .ok v ∧
      (("z", ({ v := [21, 42, 63] } : ts.expr.TimeSeries)) :: envAB : ts.expr.Env) =
        ts.expr.envInsert c.target (ts.expr.coerceStore v) envAB ∧
      txPipeline ("z = a + b * 2".toList) (toyOfEnv envAB) =
        .ok ((c.target, toyOfVal v) :: toyOfEnv envAB)) :=
  ⟨by decide, by decide, by decide,
    (c1_parse_lockstep_and_execution_refinement ("z = a + b * 2".toList) c1toks envAB
        (by decide) (by decide) (by decide)).2
      (("z", { v := [21, 42, 63] }) :: envAB) (by decide)⟩

end ClaimTheorems
